import Mathlib

/-!
# Verification of the fetch-interception engine (`src/fetch.ts`)

Shallow embedding of the interception engine: the JS `Map` objects are
modelled as association lists (key-unique by construction, mirroring JS
`Map` insert/update/delete semantics), `ArrayBuffer` bodies are modelled
by the string they decode to (every buffer in the program is produced by
`TextEncoder.encode` or by the transport, and `TextEncoder`/`TextDecoder`
are mutually inverse on well-formed text), and the SHA-256 body
comparison in `compare` is modelled as content equality of the decoded
strings (the digests of two buffers coincide exactly when the contents
do, up to hash collision).

External platform collaborators (`path-to-regexp`'s `match`/`compile`,
`Buffer` base64 codecs) are kept abstract as fields of an `Env` record;
`URLSearchParams` is modelled without percent-escaping, which is the
identity on the query strings exercised here.
-/

namespace ChromeRD

/-! ## Association lists modelling JS `Map` / plain-object semantics -/

/-- `Map.prototype.get` / object property read: first binding wins. -/
def aget {κ α : Type} [BEq κ] (m : List (κ × α)) (k : κ) : Option α :=
  (m.find? (fun p => p.1 == k)).map (fun p => p.2)

/-- `Map.prototype.set` / object property write: update in place when the
key is present (keeping its position), append otherwise. -/
def aset {κ α : Type} [BEq κ] (m : List (κ × α)) (k : κ) (v : α) :
    List (κ × α) :=
  if m.any (fun p => p.1 == k) then
    m.map (fun p => if p.1 == k then (k, v) else p)
  else m ++ [(k, v)]

/-- `Map.prototype.delete`. -/
def adel {κ α : Type} [BEq κ] (m : List (κ × α)) (k : κ) : List (κ × α) :=
  m.filter (fun p => ¬ p.1 == k)

/-- `new Map(pairs)` / `Object.fromEntries(pairs)`: later duplicates
overwrite the value while keeping the first occurrence's position. -/
def afromPairs {κ α : Type} [BEq κ] (l : List (κ × α)) : List (κ × α) :=
  l.foldl (fun acc p => aset acc p.1 p.2) []

/-- Keys of an association list. -/
def akeys {κ α : Type} (m : List (κ × α)) : List κ := m.map (fun p => p.1)

/-- The key-uniqueness invariant every JS `Map` maintains. -/
def NodupKeys {κ α : Type} (m : List (κ × α)) : Prop := (akeys m).Nodup

/-! ## String helpers mirroring the JS string operations used -/

/-- Membership in the character class `[A-Z]` (code points 65–90). -/
def isUpperAscii (c : Char) : Bool :=
  decide (65 ≤ c.toNat) && decide (c.toNat ≤ 90)

/-- The `/[A-Z]/.test(name)` check of the header-normalisation pass. -/
def hasUpper (s : String) : Bool :=
  s.data.any isUpperAscii

/-- `String.prototype.toLowerCase`, restricted to the ASCII range (header
field names are ASCII tokens, so the Unicode tail of the JS mapping is
not exercised). -/
def jsToLower (s : String) : String :=
  String.mk (s.data.map Char.toLower)

/-! ## Basic lemmas about the association-list operations -/

theorem aget_eq_none_of_not_mem {κ α : Type} [BEq κ] [LawfulBEq κ]
    (m : List (κ × α)) (k : κ)
    (h : ∀ p ∈ m, p.1 ≠ k) : aget m k = none := by
  unfold aget
  rw [List.find?_eq_none.mpr]
  · rfl
  · intro p hp
    simpa using h p hp

theorem aget_cons_self {κ α : Type} [BEq κ] [LawfulBEq κ]
    (m : List (κ × α)) (k : κ) (v : α) :
    aget ((k, v) :: m) k = some v := by
  simp [aget, List.find?]

theorem aget_cons_ne {κ α : Type} [BEq κ] [LawfulBEq κ]
    (m : List (κ × α)) (k k' : κ) (v : α)
    (h : k' ≠ k) : aget ((k', v) :: m) k = aget m k := by
  have hb : (k' == k) = false := beq_eq_false_iff_ne.mpr h
  simp [aget, List.find?, hb]

/-- On a key-unique list every binding is recovered by `aget`. -/
theorem aget_of_mem_nodup {κ α : Type} [BEq κ] [LawfulBEq κ]
    (m : List (κ × α))
    (hm : NodupKeys m) (k : κ) (v : α) (hkv : (k, v) ∈ m) :
    aget m k = some v := by
  induction m with
  | nil => cases hkv
  | cons p t ih =>
    rcases p with ⟨pk, pv⟩
    simp only [NodupKeys, akeys, List.map_cons, List.nodup_cons] at hm
    rcases List.mem_cons.mp hkv with h | h
    · injection h with h1 h2
      subst h1; subst h2
      exact aget_cons_self t k v
    · have hmem : k ∈ akeys t := List.mem_map.mpr ⟨(k, v), h, rfl⟩
      have hk : pk ≠ k := by
        intro he
        exact hm.1 (by simpa [akeys, he] using hmem)
      rw [aget_cons_ne t k pk pv hk]
      exact ih hm.2 h

/-! ## JSON values

`JSON.parse` returns an arbitrary JSON value; the engine's declared codec
interface then treats it as a string map. -/

inductive Json where
  | null : Json
  | bool (b : Bool) : Json
  | num (lexeme : String) : Json
  | str (s : String) : Json
  | arr (elems : List Json) : Json
  | obj (entries : List (String × Json)) : Json

/-! ## `JSON.stringify` on string-valued objects -/

/-- Lower-case hexadecimal digit, as emitted by `JSON.stringify`'s
`\u00xx` escapes. -/
def hexDigitChar (n : Nat) : Char :=
  if n < 10 then Char.ofNat (48 + n) else Char.ofNat (87 + n)

/-- The escaping `JSON.stringify` applies inside string literals. -/
def escapeChar (c : Char) : List Char :=
  if c = '"' then ['\\', '"']
  else if c = '\\' then ['\\', '\\']
  else if c = Char.ofNat 8 then ['\\', 'b']
  else if c = Char.ofNat 9 then ['\\', 't']
  else if c = Char.ofNat 10 then ['\\', 'n']
  else if c = Char.ofNat 12 then ['\\', 'f']
  else if c = Char.ofNat 13 then ['\\', 'r']
  else if c.toNat < 32 then
    ['\\', 'u', '0', '0', hexDigitChar (c.toNat / 16), hexDigitChar (c.toNat % 16)]
  else [c]

def escapeList : List Char → List Char
  | [] => []
  | c :: t => escapeChar c ++ escapeList t

/-- A JSON string literal, quotes included. -/
def quoteChars (s : String) : List Char :=
  '"' :: (escapeList s.data ++ ['"'])

def encodeEntryChars (p : String × String) : List Char :=
  quoteChars p.1 ++ ':' :: quoteChars p.2

def encodeEntriesChars : List (String × String) → List Char
  | [] => []
  | [p] => encodeEntryChars p
  | p :: q :: t => encodeEntryChars p ++ ',' :: encodeEntriesChars (q :: t)

/-- `JSON.stringify` of a string-valued plain object. -/
def jsonStringifyObj (m : List (String × String)) : String :=
  String.mk ('{' :: (encodeEntriesChars m ++ ['}']))

/-! ## A model of `JSON.parse` -/

def isJsonWs (c : Char) : Bool :=
  c == ' ' || c == Char.ofNat 9 || c == Char.ofNat 10 || c == Char.ofNat 13

def skipWs (l : List Char) : List Char := l.dropWhile isJsonWs

def hexVal (c : Char) : Option Nat :=
  if '0' ≤ c ∧ c ≤ '9' then some (c.toNat - 48)
  else if 'a' ≤ c ∧ c ≤ 'f' then some (c.toNat - 87)
  else if 'A' ≤ c ∧ c ≤ 'F' then some (c.toNat - 55)
  else none

/-- Decode one `\u` escape (the `\u` already consumed): the resulting
character and how many input characters were consumed (4, or 10 when a
surrogate pair is combined).  A lone surrogate is mapped through
`Char.ofNat` (a modelling seam: Lean characters are Unicode scalars
while JS strings are UTF-16). -/
def parseUEscape (r : List Char) : Option (Char × Nat) :=
  match r with
  | h1 :: h2 :: h3 :: h4 :: r2 =>
    match hexVal h1, hexVal h2, hexVal h3, hexVal h4 with
    | some a, some b, some c2, some d =>
      let n := ((a * 16 + b) * 16 + c2) * 16 + d
      if 55296 ≤ n ∧ n ≤ 56319 then
        match r2 with
        | '\\' :: 'u' :: g1 :: g2 :: g3 :: g4 :: _ =>
          match hexVal g1, hexVal g2, hexVal g3, hexVal g4 with
          | some a2, some b2, some c3, some d2 =>
            let m2 := ((a2 * 16 + b2) * 16 + c3) * 16 + d2
            if 56320 ≤ m2 ∧ m2 ≤ 57343 then
              some (Char.ofNat (65536 + (n - 55296) * 1024 + (m2 - 56320)), 10)
            else some (Char.ofNat n, 4)
          | _, _, _, _ => some (Char.ofNat n, 4)
        | _ => some (Char.ofNat n, 4)
      else some (Char.ofNat n, 4)
    | _, _, _, _ => none
  | _ => none

/-- Parse the body of a JSON string literal (the opening quote already
consumed), returning the decoded characters and the remainder after the
closing quote. -/
def parseStrChars : List Char → Option (List Char × List Char)
  | [] => none
  | c :: rest =>
    if c = '"' then some ([], rest)
    else if c = '\\' then
      match rest with
      | [] => none
      | e :: r =>
        if e = '"' then (parseStrChars r).map (fun q => ('"' :: q.1, q.2))
        else if e = '\\' then (parseStrChars r).map (fun q => ('\\' :: q.1, q.2))
        else if e = '/' then (parseStrChars r).map (fun q => ('/' :: q.1, q.2))
        else if e = 'b' then (parseStrChars r).map (fun q => (Char.ofNat 8 :: q.1, q.2))
        else if e = 't' then (parseStrChars r).map (fun q => (Char.ofNat 9 :: q.1, q.2))
        else if e = 'n' then (parseStrChars r).map (fun q => (Char.ofNat 10 :: q.1, q.2))
        else if e = 'f' then (parseStrChars r).map (fun q => (Char.ofNat 12 :: q.1, q.2))
        else if e = 'r' then (parseStrChars r).map (fun q => (Char.ofNat 13 :: q.1, q.2))
        else if e = 'u' then
          match parseUEscape r with
          | some (ch, k) => (parseStrChars (r.drop k)).map (fun q => (ch :: q.1, q.2))
          | none => none
        else none
    else if c.toNat < 32 then none
    else (parseStrChars rest).map (fun q => (c :: q.1, q.2))
termination_by l => l.length
decreasing_by all_goals (simp_wf <;> omega)

def parseFrac (l : List Char) : Option (List Char × List Char) :=
  match l with
  | '.' :: t =>
    let fs := t.takeWhile Char.isDigit
    if fs.isEmpty then none else some ('.' :: fs, t.drop fs.length)
  | _ => some ([], l)

def parseExp (l : List Char) : Option (List Char × List Char) :=
  match l with
  | c :: t =>
    if c = 'e' ∨ c = 'E' then
      match t with
      | s :: t2 =>
        if s = '+' ∨ s = '-' then
          let ds := t2.takeWhile Char.isDigit
          if ds.isEmpty then none else some (c :: s :: ds, t2.drop ds.length)
        else
          let ds := t.takeWhile Char.isDigit
          if ds.isEmpty then none else some (c :: ds, t.drop ds.length)
      | [] => none
    else some ([], l)
  | [] => some ([], l)

/-- JSON number grammar: `-?(0|[1-9][0-9]*)(\.[0-9]+)?([eE][+-]?[0-9]+)?`. -/
def parseNumber (l : List Char) : Option (List Char × List Char) :=
  let sl : List Char × List Char := match l with
    | '-' :: t => (['-'], t)
    | _ => ([], l)
  match sl.2 with
  | c :: t =>
    if c = '0' then
      match parseFrac t with
      | none => none
      | some (f, t2) =>
        match parseExp t2 with
        | none => none
        | some (e, t3) => some (sl.1 ++ c :: (f ++ e), t3)
    else if c.isDigit then
      let ds := t.takeWhile Char.isDigit
      match parseFrac (t.drop ds.length) with
      | none => none
      | some (f, t2) =>
        match parseExp t2 with
        | none => none
        | some (e, t3) => some (sl.1 ++ c :: (ds ++ f ++ e), t3)
    else none
  | [] => none

mutual

/-- One JSON value (leading whitespace allowed), by recursion on a fuel
bound; `jsonParse` supplies more fuel than any input can consume. -/
def parseValue : Nat → List Char → Option (Json × List Char)
  | 0, _ => none
  | n + 1, l =>
    match skipWs l with
    | [] => none
    | c :: rest =>
      if c = '"' then
        (parseStrChars rest).map (fun q => (Json.str (String.mk q.1), q.2))
      else if c = '{' then
        match skipWs rest with
        | '}' :: r => some (Json.obj [], r)
        | l2 => (parseMembers n l2 []).map (fun q => (Json.obj q.1, q.2))
      else if c = '[' then
        match skipWs rest with
        | ']' :: r => some (Json.arr [], r)
        | l2 => (parseElems n l2 []).map (fun q => (Json.arr q.1, q.2))
      else if c = 't' then
        match rest with
        | 'r' :: 'u' :: 'e' :: r => some (Json.bool true, r)
        | _ => none
      else if c = 'f' then
        match rest with
        | 'a' :: 'l' :: 's' :: 'e' :: r => some (Json.bool false, r)
        | _ => none
      else if c = 'n' then
        match rest with
        | 'u' :: 'l' :: 'l' :: r => some (Json.null, r)
        | _ => none
      else
        (parseNumber (c :: rest)).map (fun q => (Json.num (String.mk q.1), q.2))

/-- The members of an object after `{` (first member not yet consumed).
Duplicate keys overwrite the value at the first occurrence's position,
as `JSON.parse` does. -/
def parseMembers : Nat → List Char → List (String × Json) →
    Option (List (String × Json) × List Char)
  | 0, _, _ => none
  | n + 1, l, acc =>
    match skipWs l with
    | '"' :: rest =>
      match parseStrChars rest with
      | none => none
      | some (k, r1) =>
        match skipWs r1 with
        | ':' :: r2 =>
          match parseValue n r2 with
          | none => none
          | some (v, r3) =>
            match skipWs r3 with
            | ',' :: r4 => parseMembers n r4 (aset acc (String.mk k) v)
            | '}' :: r4 => some (aset acc (String.mk k) v, r4)
            | _ => none
        | _ => none
    | _ => none

/-- The elements of an array after `[` (first element not yet consumed). -/
def parseElems : Nat → List Char → List Json → Option (List Json × List Char)
  | 0, _, _ => none
  | n + 1, l, acc =>
    match parseValue n l with
    | none => none
    | some (v, r) =>
      match skipWs r with
      | ',' :: r2 => parseElems n r2 (acc ++ [v])
      | ']' :: r2 => some (acc ++ [v], r2)
      | _ => none

end

/-- `JSON.parse`: a whole input is one value with only trailing
whitespace allowed; `none` models the thrown `SyntaxError`. -/
def jsonParse (s : String) : Option Json :=
  match parseValue (s.length + 2) s.data with
  | some (v, rest) => if skipWs rest = [] then some v else none
  | none => none

mutual

/-- Serialization of a JSON value (used to read non-string member values
back through the codec's declared string-map interface). -/
def jsonSerialize : Json → String
  | Json.null => "null"
  | Json.bool b => cond b "true" "false"
  | Json.num lexeme => lexeme
  | Json.str s => String.mk (quoteChars s)
  | Json.arr es => "[" ++ jsonSerializeElems es ++ "]"
  | Json.obj ms => "\x7b" ++ jsonSerializeMembers ms ++ "\x7d"

def jsonSerializeElems : List Json → String
  | [] => ""
  | [e] => jsonSerialize e
  | e :: f :: t => jsonSerialize e ++ "," ++ jsonSerializeElems (f :: t)

def jsonSerializeMembers : List (String × Json) → String
  | [] => ""
  | [p] => String.mk (quoteChars p.1) ++ ":" ++ jsonSerialize p.2
  | p :: q :: t =>
    String.mk (quoteChars p.1) ++ ":" ++ jsonSerialize p.2 ++ "," ++
      jsonSerializeMembers (q :: t)

end

/-- How a member value read through the codec's declared
`{[key: string]: string}` interface presents itself: JSON strings give
their text, anything else its JSON serialization. -/
def jsonValToString : Json → String
  | Json.str s => s
  | v => jsonSerialize v

/-! ## The body codecs (`BodyParserInterface` implementations) -/

/-- A registered body codec; bodies are modelled by their decoded text
(`TextEncoder`/`TextDecoder` are inverse on well-formed text). -/
structure BodyParser where
  name : String
  parse : String → List (String × String)
  encode : List (String × String) → String

/-- `JsonBodyParser.parse`: `JSON.parse` inside `try`, the `catch`
returning `{}`; a non-object value has no string-keyed own properties
visible to the engine's `Object.entries` (a seam for top-level strings
and arrays, whose index properties the claims never reach). -/
def jsonBodyParse (data : String) : List (String × String) :=
  match jsonParse data with
  | some (Json.obj ms) => ms.map (fun p => (p.1, jsonValToString p.2))
  | some _ => []
  | none => []

def jsonBodyEncode (data : List (String × String)) : String :=
  jsonStringifyObj data

def JsonBodyParser : BodyParser :=
  { name := "application/json", parse := jsonBodyParse, encode := jsonBodyEncode }

/-! ## URL model

A WHATWG `URL` as the engine consumes it: `origin`, `pathname` and the
query string (`search` without its leading `?`).  `URLSearchParams`
(de)serialization is modelled without percent-escaping, which is the
identity on the query strings exercised by the claims. -/

structure URLParts where
  origin : String
  pathname : String
  search : String
deriving DecidableEq, Repr

def urlToString (u : URLParts) : String :=
  u.origin ++ u.pathname ++ (if u.search.isEmpty then "" else "?" ++ u.search)

/-- `new URLSearchParams(s)` as a pair sequence: split on `&`, skip empty
segments, split each segment at its first `=`. -/
def parseQuery (s : String) : List (String × String) :=
  (s.splitOn "&").filterMap (fun seg =>
    if seg.isEmpty then none
    else match seg.splitOn "=" with
      | [] => none
      | k :: rest => some (k, String.intercalate "=" rest))

/-- `URLSearchParams.prototype.toString` over a pair sequence. -/
def serializeQuery (l : List (String × String)) : String :=
  String.intercalate "&" (l.map (fun p => p.1 ++ "=" ++ p.2))

/-! ## Content-type resolution (`FetchInterceptor.getBodyParser`) -/

def isCTTypeChar (c : Char) : Bool := c.isAlphanum

def isCTSubChar (c : Char) : Bool := c.isAlphanum || c == '-' || c == '_'

/-- The `/^(?<contentType>[a-zA-Z0-9]+\/[a-zA-Z0-9\-\_]+)(;.*)?/` prefix
extraction: the greedy `type/subtype` prefix when the string starts with
one, `none` otherwise (the optional `(;.*)?` group constrains nothing). -/
def extractContentType (s : String) : Option String :=
  let cs := s.data
  let t := cs.takeWhile isCTTypeChar
  if t.isEmpty then none
  else
    match cs.drop t.length with
    | '/' :: rest =>
      let sub := rest.takeWhile isCTSubChar
      if sub.isEmpty then none else some (String.mk (t ++ '/' :: sub))
    | _ => none

/-- `getBodyParser`: regex extraction falling back to `'N/A'`, then the
registry lookup. -/
def getBodyParser (reg : List (String × BodyParser)) (contentType : String) :
    Option BodyParser :=
  aget reg ((extractContentType contentType).getD "N/A")

/-! ## The HTTP methods and the status-reason table -/

def AllInvocationMethods : List String :=
  ["GET", "HEAD", "POST", "PUT", "DELETE", "OPTIONS", "TRACE", "PATCH"]

def IsInvocationMethod (value : String) : Bool :=
  AllInvocationMethods.contains value

def HttpStatusText : List (Int × String) :=
  [(100, "Continue"), (101, "Switching Protocols"), (102, "Processing"),
   (103, "Early Hints"), (200, "OK"), (201, "Created"), (202, "Accepted"),
   (203, "Non-Authoritative Information"), (204, "No Content"),
   (205, "Reset Content"), (206, "Partial Content"), (207, "Multi-Status"),
   (208, "Already Reported"), (226, "IM Used"), (300, "Multiple Choices"),
   (301, "Moved Permanently"), (302, "Found"), (303, "See Other"),
   (304, "Not Modified"), (305, "Use Proxy"), (306, "Switch Proxy"),
   (307, "Temporary Redirect"), (308, "Permanent Redirect"),
   (400, "Bad Request"), (401, "Unauthorized"), (402, "Payment Required"),
   (403, "Forbidden"), (404, "Not Found"), (405, "Method Not Allowed"),
   (406, "Not Acceptable"), (407, "Proxy Authentication Required"),
   (408, "Request Timeout"), (409, "Conflict"), (410, "Gone"),
   (411, "Length Required"), (412, "Precondition Failed"),
   (413, "Payload Too Large"), (414, "URI Too Long"),
   (415, "Unsupported Media Type"), (416, "Range Not Satisfiable"),
   (417, "Expectation Failed"), (418, "I'm a teapot"),
   (421, "Misdirected Request"), (422, "Unprocessable Entity"),
   (423, "Locked"), (424, "Failed Dependency"), (425, "Too Early"),
   (426, "Upgrade Required"), (428, "Precondition Required"),
   (429, "Too Many Requests"), (431, "Request Header Fields Too Large"),
   (451, "Unavailable For Legal Reasons"), (500, "Internal Server Error"),
   (501, "Not Implemented"), (502, "Bad Gateway"),
   (503, "Service Unavailable"), (504, "Gateway Timeout"),
   (505, "HTTP Version Not Supported"), (506, "Variant Also Negotiates"),
   (507, "Insufficient Storage"), (508, "Loop Detected"),
   (510, "Not Extended"), (511, "Network Authentication Required")]

/-! ## Contexts, return values and their diffs -/

structure InternalInvocationContext where
  method : String
  url : String
  params : List (String × String)
  form : List (String × String)
  query : List (String × String)
  body : String
  requestHeaders : List (String × String)
  target : URLParts
deriving DecidableEq, Repr

structure InternalInvocationReturnValue where
  statusCode : Int
  statusText : String
  responseHeaders : List (String × String)
  body : String
  form : List (String × String)
deriving DecidableEq, Repr

/-- `mapcmp`: equal sizes and, over the source's keys, equal lookups. -/
def mapcmp (src dst : List (String × String)) : Bool :=
  src.length == dst.length &&
    (akeys src).all (fun x => aget src x == aget dst x)

structure ContextDiff where
  modified : Bool
  modifiedParams : Bool
  modifiedForm : Bool
  modifiedQuery : Bool
deriving DecidableEq, Repr

/-- `InternalInvocationContext.compare`; the SHA-256 digest comparison of
the two bodies is modelled as content equality. -/
def InternalInvocationContext.compare
    (src tgt : InternalInvocationContext) : ContextDiff :=
  let modifiedUrl := tgt.url != src.url
  let modifiedMethod := tgt.method != src.method
  let modifiedHeaders := !(mapcmp src.requestHeaders tgt.requestHeaders)
  let modifiedParams := !(mapcmp src.params tgt.params)
  let modifiedQuery := !(mapcmp src.query tgt.query)
  let modifiedForm := !(mapcmp src.form tgt.form)
  let modifiedBody := !(src.body == tgt.body)
  { modified := modifiedUrl || modifiedMethod || modifiedHeaders ||
      modifiedParams || modifiedForm || modifiedBody || modifiedQuery,
    modifiedParams := modifiedParams, modifiedForm := modifiedForm,
    modifiedQuery := modifiedQuery }

structure ReturnDiff where
  modified : Bool
  modifiedForm : Bool
deriving DecidableEq, Repr

/-- `InternalInvocationReturnValue.compare`, with the same body-digest
modelling. -/
def InternalInvocationReturnValue.compare
    (src tgt : InternalInvocationReturnValue) : ReturnDiff :=
  let modifiedStatusCode := tgt.statusCode != src.statusCode
  let modifiedStatusText := tgt.statusText != src.statusText
  let modifiedHeaders := !(mapcmp src.responseHeaders tgt.responseHeaders)
  let modifiedForm := !(mapcmp src.form tgt.form)
  let modifiedBody := !(src.body == tgt.body)
  { modified := modifiedStatusCode || modifiedStatusText ||
      modifiedHeaders || modifiedForm || modifiedBody,
    modifiedForm := modifiedForm }

/-! ## Routes, the listener table and the interceptor state

A user callback mutates its `this` binding; its observable effect is the
final state of that bound object, so it is modelled as a function from
the pre-invocation object to the post-invocation one. -/

structure InvocationCallbacks where
  onRequest : Option (InternalInvocationContext → InternalInvocationContext) := none
  onResponse : Option (InternalInvocationReturnValue → InternalInvocationReturnValue) := none

/-- One entry of the per-(method, origin) listener map: the map is keyed
by the `match` closure, which `handle` creates fresh on every call, so
the entries form an append-only ordered list. -/
structure Route where
  pattern : String
  matcher : String → Option (List (String × String))
  callbacks : InvocationCallbacks

abbrev ListenerTable := List (String × List (String × List Route))

/-- `InternalInvocationListener.get`. -/
def listenersGet (lt : ListenerTable) (method origin : String) :
    Option (List Route) :=
  match aget lt method with
  | none => none
  | some o => aget o origin

/-- `InternalInvocationListener.set`: create the missing per-method and
per-origin maps, then append the fresh-keyed entry.  The defensive
re-`get`-or-throw steps of the source always succeed and are elided. -/
def listenersSet (lt : ListenerTable) (method origin : String) (r : Route) :
    ListenerTable :=
  let o := (aget lt method).getD []
  let p := (aget o origin).getD []
  aset lt method (aset o origin (p ++ [r]))

/-- The engine state.  `listenersCache` is keyed in the source by the
identity of the per-(method, origin) inner `Map` object; that object is
created once, mutated in place and never replaced, so its identity is in
bijection with the `(method, origin)` pair used here. -/
structure FetchInterceptorState where
  listeners : ListenerTable
  listenersCache : List ((String × String) × List Route)
  contextCache : List (String × InternalInvocationContext)
  bodyParser : List (String × BodyParser)

/-- The external collaborators: `path-to-regexp`'s `match` and `compile`
(the latter applied to a params object), and the `Buffer` base64 codec. -/
structure Env where
  matchFn : String → String → Option (List (String × String))
  compileFn : String → List (String × String) → String
  b64encode : String → String
  b64decode : String → String

/-- A `Fetch.requestPaused` event.  `headers` is `Object.entries` of the
request-headers object; `responseBodyAnswer` is the
`(base64Encoded, body)` reply the transport would give to
`Fetch.getResponseBody` for this request. -/
structure RequestPausedEvent where
  requestId : String
  method : String
  url : URLParts
  headers : List (String × String)
  hasPostData : Bool := false
  postData : String := ""
  responseStatusCode : Option Int := none
  responseStatusText : Option String := none
  responseHeaders : List (String × String) := []
  responseBodyAnswer : Bool × String := (false, "")

/-! ## Outgoing protocol commands -/

structure ContinueRequestRequest where
  requestId : String
  url : Option String := none
  method : Option String := none
  postData : Option String := none
  headers : Option (List (String × String)) := none
  interceptResponse : Option Bool := none
deriving DecidableEq, Repr

structure FulfillRequestRequest where
  requestId : String
  responseCode : Int
  responsePhrase : Option String := none
  responseHeaders : Option (List (String × String)) := none
  body : Option String := none
deriving DecidableEq, Repr

inductive FetchCommand where
  | continueRequest (c : ContinueRequestRequest)
  | continueResponse (requestId : String)
  | fulfillRequest (f : FulfillRequestRequest)
deriving DecidableEq, Repr

/-- Everything one `requestPaused` dispatch does: the command sent, the
caches it leaves behind, which transport capabilities and callbacks it
exercised, and the intermediate objects of the run (the context built
for the callback, its post-callback state, the diff). -/
structure Outcome where
  cmd : FetchCommand
  contextCache : List (String × InternalInvocationContext)
  listenersCache : List ((String × String) × List Route)
  consultedRoutes : Bool := false
  calledGetResponseBody : Bool := false
  invokedOnRequest : Bool := false
  invokedOnResponse : Bool := false
  reqCtxPre : Option InternalInvocationContext := none
  reqCtxPost : Option InternalInvocationContext := none
  reqDiff : Option ContextDiff := none
  rvPre : Option InternalInvocationReturnValue := none
  rvPost : Option InternalInvocationReturnValue := none
  rvDiff : Option ReturnDiff := none

/-! ## The request phase of `FetchInterceptor.requestPaused` -/

/-- The header lower-casing on receipt (lines
`Object.entries(reqHdrs).map(([name, value]) => [name.toLowerCase(), value])`
and the same for response headers). -/
def lowerPairs (l : List (String × String)) : List (String × String) :=
  l.map (fun p => (jsToLower p.1, p.2))

/-- One step of the post-callback header pass: a name containing an
upper-case letter is deleted and re-set lower-cased. -/
def headerStep (acc : List (String × String)) (p : String × String) :
    List (String × String) :=
  if hasUpper p.1 then aset (adel acc p.1) (jsToLower p.1) p.2 else acc

/-- The post-callback pass that re-folds user-written header names to
lower case: iterate over a snapshot (`Array.from`) of the entries,
mutating the map itself. -/
def normalizeHeaders (m : List (String × String)) : List (String × String) :=
  m.foldl headerStep m

/-- The request body: the inline posted data when `hasPostData`, else
empty (`new TextEncoder().encode(hasPostData ? postData : '')`). -/
def reqOrigBody (ev : RequestPausedEvent) : String :=
  if ev.hasPostData then ev.postData else ""

/-- Request-phase context construction (`Step 1` of the request branch).
`copy()` is the identity in this pure model: it deep-copies immutable
data, and its re-derivation of `target` from `url` happens before any
mutation of `url`. -/
def buildRequestContext (st : FetchInterceptorState) (ev : RequestPausedEvent)
    (r : Route) : InternalInvocationContext :=
  let params := afromPairs ((r.matcher ev.url.pathname).getD [])
  let headers := afromPairs (lowerPairs ev.headers)
  let body := reqOrigBody ev
  let preparser := getBodyParser st.bodyParser ((aget headers "content-type").getD "")
  let parsedBody := match preparser with
    | some pr => if ev.hasPostData then pr.parse body else []
    | none => []
  { method := ev.method, url := urlToString ev.url, params := params,
    form := afromPairs parsedBody, query := afromPairs (parseQuery ev.url.search),
    body := body, requestHeaders := headers, target := ev.url }

/-- The caller object after the `onRequest` callback ran and the
post-callback header pass re-cased its header names (`Step 2`). -/
def afterRequestCallback (st : FetchInterceptorState) (ev : RequestPausedEvent)
    (r : Route) (f : InternalInvocationContext → InternalInvocationContext) :
    InternalInvocationContext :=
  let ret := f (buildRequestContext st ev r)
  { ret with requestHeaders := normalizeHeaders ret.requestHeaders }

def requestDiff (st : FetchInterceptorState) (ev : RequestPausedEvent)
    (r : Route) (f : InternalInvocationContext → InternalInvocationContext) :
    ContextDiff :=
  (buildRequestContext st ev r).compare (afterRequestCallback st ev r f)

/-- `Step 3`: the `Fetch.continueRequest` payload.  The `postData` field
carries the chosen body through the base64 `Buffer` encoding. -/
def requestCommand (env : Env) (st : FetchInterceptorState)
    (ev : RequestPausedEvent) (r : Route)
    (f : InternalInvocationContext → InternalInvocationContext) :
    ContinueRequestRequest :=
  let ret := afterRequestCallback st ev r f
  let postparser := getBodyParser st.bodyParser ((aget ret.requestHeaders "content-type").getD "")
  let d := requestDiff st ev r f
  if d.modified then
    { requestId := ev.requestId, interceptResponse := some true,
      url := some (if d.modifiedParams || d.modifiedQuery then
          let t1 := if d.modifiedParams then
              { ret.target with pathname := env.compileFn r.pattern (afromPairs ret.params) }
            else ret.target
          let t2 := if d.modifiedQuery then
              { t1 with search := serializeQuery ret.query }
            else t1
          urlToString t2
        else ret.url),
      method := some ret.method,
      headers := some ret.requestHeaders,
      postData := some (env.b64encode (
        match postparser with
        | some pp => if d.modifiedForm then pp.encode (afromPairs ret.form)
            else if ret.body.isEmpty then reqOrigBody ev else ret.body
        | none => if ret.body.isEmpty then reqOrigBody ev else ret.body)) }
  else { requestId := ev.requestId, interceptResponse := some true }

/-- The request branch once a route matched.  When no `onRequest`
callback exists the engine continues with a bare `{ requestId }` (no
`interceptResponse`); otherwise it caches the post-callback context
under the request id (the `set` aliases the object later normalised in
place) and continues with `requestCommand`. -/
def handleRequestPhase (env : Env) (st : FetchInterceptorState)
    (cache2 : List ((String × String) × List Route))
    (ev : RequestPausedEvent) (r : Route) : Outcome :=
  match r.callbacks.onRequest with
  | none =>
    { cmd := FetchCommand.continueRequest { requestId := ev.requestId },
      contextCache := st.contextCache, listenersCache := cache2,
      consultedRoutes := true,
      reqCtxPre := some (buildRequestContext st ev r) }
  | some f =>
    { cmd := FetchCommand.continueRequest (requestCommand env st ev r f),
      contextCache := aset st.contextCache ev.requestId (afterRequestCallback st ev r f),
      listenersCache := cache2, consultedRoutes := true,
      invokedOnRequest := true,
      reqCtxPre := some (buildRequestContext st ev r),
      reqCtxPost := some (afterRequestCallback st ev r f),
      reqDiff := some (requestDiff st ev r f) }

/-! ## The response phase of `FetchInterceptor.requestPaused` -/

def respIsRedirect (code : Int) : Bool :=
  decide (300 ≤ code) && decide (code < 400)

/-- The `(base64Encoded, body)` the engine works from: the canned empty
reply for redirects, the transport's `Fetch.getResponseBody` reply
otherwise. -/
def respRawAnswer (ev : RequestPausedEvent) (code : Int) : Bool × String :=
  if respIsRedirect code then (true, "") else ev.responseBodyAnswer

/-- The decoded response body
(`base64Encoded ? Buffer.from(rawBody, 'base64').toString() : rawBody`). -/
def respOrigBody (env : Env) (ev : RequestPausedEvent) (code : Int) : String :=
  let a := respRawAnswer ev code
  if a.1 then env.b64decode a.2 else a.2

/-- Response-phase return-value construction (`Step 1` of the response
branch).  Note the parse gate reuses the request's `hasPostData` flag. -/
def buildReturnValue (env : Env) (st : FetchInterceptorState)
    (ev : RequestPausedEvent) (code : Int) (text : String) :
    InternalInvocationReturnValue :=
  let headers := afromPairs (lowerPairs ev.responseHeaders)
  let body := respOrigBody env ev code
  let preparser := getBodyParser st.bodyParser ((aget headers "content-type").getD "")
  let parsedBody := match preparser with
    | some pr => if ev.hasPostData then pr.parse body else []
    | none => []
  let statusText := if text.isEmpty then (aget HttpStatusText code).getD "UNKNOWN" else text
  { statusCode := code, statusText := statusText, responseHeaders := headers,
    body := body, form := afromPairs parsedBody }

def afterResponseCallback (env : Env) (st : FetchInterceptorState)
    (ev : RequestPausedEvent) (code : Int) (text : String)
    (f : InternalInvocationReturnValue → InternalInvocationReturnValue) :
    InternalInvocationReturnValue :=
  let ret := f (buildReturnValue env st ev code text)
  { ret with responseHeaders := normalizeHeaders ret.responseHeaders }

def responseDiff (env : Env) (st : FetchInterceptorState)
    (ev : RequestPausedEvent) (code : Int) (text : String)
    (f : InternalInvocationReturnValue → InternalInvocationReturnValue) :
    ReturnDiff :=
  (buildReturnValue env st ev code text).compare
    (afterResponseCallback env st ev code text f)

/-- `Step 3`: the `Fetch.fulfillRequest` payload; the body goes back out
base64-encoded exactly when the transport's reply was base64-encoded. -/
def responseCommand (env : Env) (st : FetchInterceptorState)
    (ev : RequestPausedEvent) (code : Int) (text : String)
    (f : InternalInvocationReturnValue → InternalInvocationReturnValue) :
    FulfillRequestRequest :=
  let ctx := buildReturnValue env st ev code text
  let ret := afterResponseCallback env st ev code text f
  let postparser := getBodyParser st.bodyParser ((aget ret.responseHeaders "content-type").getD "")
  let d := responseDiff env st ev code text f
  if d.modified then
    { requestId := ev.requestId, responseCode := ret.statusCode,
      responsePhrase := some ret.statusText,
      responseHeaders := some ret.responseHeaders,
      body := some (
        let chosen := match postparser with
          | some pp => if d.modifiedForm then pp.encode (afromPairs ret.form)
              else if ret.body.isEmpty then ctx.body else ret.body
          | none => if ret.body.isEmpty then ctx.body else ret.body
        if (respRawAnswer ev code).1 then env.b64encode chosen else chosen) }
  else { requestId := ev.requestId, responseCode := code }

/-- The response branch once a route matched: fetch (or stub, for 3xx)
the body, build the return value, and either continue the response
untouched (no `onResponse`; note the context cache is *not* cleaned on
this path, the `delete` sits after the early return) or delete the
cached record and fulfill with `responseCommand`. -/
def handleResponsePhase (env : Env) (st : FetchInterceptorState)
    (cache2 : List ((String × String) × List Route))
    (ev : RequestPausedEvent) (r : Route) (code : Int) (text : String) :
    Outcome :=
  let called := !(respIsRedirect code)
  match r.callbacks.onResponse with
  | none =>
    { cmd := FetchCommand.continueResponse ev.requestId,
      contextCache := st.contextCache, listenersCache := cache2,
      consultedRoutes := true, calledGetResponseBody := called,
      rvPre := some (buildReturnValue env st ev code text) }
  | some f =>
    { cmd := FetchCommand.fulfillRequest (responseCommand env st ev code text f),
      contextCache := adel st.contextCache ev.requestId,
      listenersCache := cache2, consultedRoutes := true,
      calledGetResponseBody := called, invokedOnResponse := true,
      rvPre := some (buildReturnValue env st ev code text),
      rvPost := some (afterResponseCallback env st ev code text f),
      rvDiff := some (responseDiff env st ev code text f) }

/-! ## The dispatcher -/

/-- The ordered entry list the dispatcher scans: the memoised
`Array.from(p.entries())` snapshot when one exists, else the live list
(which then becomes the snapshot). -/
def cachedEntries (st : FetchInterceptorState) (method origin : String)
    (p : List Route) : List Route :=
  (aget st.listenersCache (method, origin)).getD p

/-- The listeners cache after the dispatch touched (method, origin). -/
def updatedCache (st : FetchInterceptorState) (method origin : String)
    (p : List Route) : List ((String × String) × List Route) :=
  match aget st.listenersCache (method, origin) with
  | some _ => st.listenersCache
  | none => aset st.listenersCache (method, origin) p

/-- `FetchInterceptor.requestPaused`: method gate, route resolution with
the snapshot cache, first-match scan, then the phase branches. -/
def requestPaused (env : Env) (st : FetchInterceptorState)
    (ev : RequestPausedEvent) : Outcome :=
  let crq : ContinueRequestRequest := { requestId := ev.requestId }
  if ¬ IsInvocationMethod ev.method then
    { cmd := FetchCommand.continueRequest crq,
      contextCache := st.contextCache, listenersCache := st.listenersCache }
  else
    match listenersGet st.listeners ev.method ev.url.origin with
    | none =>
      { cmd := FetchCommand.continueRequest crq,
        contextCache := st.contextCache, listenersCache := st.listenersCache,
        consultedRoutes := true }
    | some p =>
      let pp := cachedEntries st ev.method ev.url.origin p
      let cache2 := updatedCache st ev.method ev.url.origin p
      match pp.find? (fun r => (r.matcher ev.url.pathname).isSome) with
      | none =>
        { cmd := FetchCommand.continueRequest crq,
          contextCache := st.contextCache, listenersCache := cache2,
          consultedRoutes := true }
      | some r =>
        match ev.responseStatusCode, ev.responseStatusText with
        | some code, some text => handleResponsePhase env st cache2 ev r code text
        | _, _ => handleRequestPhase env st cache2 ev r

/-! ## Registration and construction -/

/-- `FetchInterceptor.handle`: parse the pattern URL, reject unsupported
methods (the source throws, modelled as `none`), compile the matcher and
append the route. -/
def handle (env : Env) (st : FetchInterceptorState) (method : String)
    (patternUrl : URLParts) (callbacks : InvocationCallbacks) :
    Option FetchInterceptorState :=
  let r : Route := Route.mk patternUrl.pathname (env.matchFn patternUrl.pathname) callbacks
  if IsInvocationMethod method then
    some { st with listeners := listenersSet st.listeners method patternUrl.origin r }
  else none

def registerBodyParser (st : FetchInterceptorState)
    (parsers : List BodyParser) : FetchInterceptorState :=
  { st with bodyParser := parsers.foldl (fun acc x => aset acc x.name x) st.bodyParser }

/-- `UrlEncodedBodyParser` (percent-escaping not modelled, as with
`URLSearchParams` above). -/
def UrlEncodedBodyParser : BodyParser :=
  { name := "application/x-www-form-urlencoded",
    parse := fun s => afromPairs (parseQuery s),
    encode := fun m => serializeQuery m }

/-- The constructor's state: empty tables with the two default codecs
registered. -/
def initialState : FetchInterceptorState :=
  registerBodyParser
    { listeners := [], listenersCache := [], contextCache := [], bodyParser := [] }
    [JsonBodyParser, UrlEncodedBodyParser]

/-! ## Concrete instances used to exercise the theorems -/

/-- A concrete environment: a literal path matcher, a generator that
returns the pattern itself, and identity transfer encodings. -/
def wEnv : Env :=
  { matchFn := fun pat path => if path == pat then some [] else none,
    compileFn := fun pat _ => pat,
    b64encode := fun s => s,
    b64decode := fun s => s }

def wUrl : URLParts := { origin := "http://a", pathname := "/t", search := "" }

def wMatcher : String → Option (List (String × String)) :=
  fun path => if path == "/t" then some [] else none

/-- A route whose two handlers leave every field unchanged. -/
def wRouteId : Route :=
  { pattern := "/t", matcher := wMatcher,
    callbacks := { onRequest := some (fun ctx => ctx),
                   onResponse := some (fun rv => rv) } }

/-- A route with no handlers at all. -/
def wRouteNone : Route :=
  { pattern := "/t", matcher := wMatcher, callbacks := {} }

/-- A route with only a request handler. -/
def wRouteReqOnly : Route :=
  { pattern := "/t", matcher := wMatcher,
    callbacks := { onRequest := some (fun ctx => ctx) } }

/-- A route whose request handler changes the method. -/
def wRouteMethod : Route :=
  { pattern := "/t", matcher := wMatcher,
    callbacks := { onRequest := some (fun ctx => { ctx with method := "PUT" }) } }

/-- A request handler that writes a mixed-case header name. -/
def wFHdr : InternalInvocationContext → InternalInvocationContext :=
  fun ctx => { ctx with requestHeaders := aset ctx.requestHeaders "FoO" "1" }

/-- A route whose request handler writes a mixed-case header name. -/
def wRouteHdr : Route :=
  { pattern := "/t", matcher := wMatcher,
    callbacks := { onRequest := some wFHdr } }

/-- A request-phase pause carrying a mixed-case header name. -/
def wEv7 : RequestPausedEvent :=
  { requestId := "r1", method := "GET", url := wUrl,
    headers := [("Content-Type", "text/html")] }

/-- A state whose dispatcher has already snapshotted the (GET, http://a)
route list (containing only the handler-less route). -/
def wSt10 : FetchInterceptorState :=
  { listeners := [("GET", [("http://a", [wRouteNone])])],
    listenersCache := [(("GET", "http://a"), [wRouteNone])],
    contextCache := [], bodyParser := initialState.bodyParser }

/-- The route the late registration adds: it matches `/t` and carries
handlers. -/
def wSt10Route : Route := Route.mk "/t" (wEnv.matchFn "/t") wRouteId.callbacks

/-- `wSt10` after registering a second route for the same method and
origin (the record `handle` produces). -/
def wSt10' : FetchInterceptorState :=
  { wSt10 with listeners := listenersSet wSt10.listeners "GET" "http://a" wSt10Route }

/-- A response handler that modifies the form map. -/
def wGForm : InternalInvocationReturnValue → InternalInvocationReturnValue :=
  fun rv => { rv with form := aset rv.form "foo" "bar" }

/-- A route whose response handler modifies the form map. -/
def wRouteForm : Route :=
  { pattern := "/t", matcher := wMatcher, callbacks := { onResponse := some wGForm } }

/-- A response-phase pause advertising a JSON content type with an empty
body. -/
def wEv2 : RequestPausedEvent :=
  { requestId := "r1", method := "GET", url := wUrl, headers := [],
    responseStatusCode := some 200, responseStatusText := some "OK",
    responseHeaders := [("content-type", "application/json")] }

def wState (r : Route) : FetchInterceptorState :=
  { initialState with listeners := [("GET", [("http://a", [r])])] }

def wEvReq : RequestPausedEvent :=
  { requestId := "r1", method := "GET", url := wUrl, headers := [] }

def wEvResp : RequestPausedEvent :=
  { requestId := "r1", method := "GET", url := wUrl, headers := [],
    responseStatusCode := some 200, responseStatusText := some "OK" }

/-- The `onRequest`-only state as the response-phase pause for `r1` finds
it: the pending record created by the request-phase dispatch is in the
cache. -/
def wStAfterReq : FetchInterceptorState :=
  { wState wRouteReqOnly with
      contextCache := (requestPaused wEnv (wState wRouteReqOnly) wEvReq).contextCache }

/-- A redirect response-phase pause; the transport would answer the body
fetch with `"X"`, which must never be requested. -/
def wEv302 : RequestPausedEvent :=
  { requestId := "r1", method := "GET", url := wUrl, headers := [],
    responseStatusCode := some 302, responseStatusText := some "F",
    responseBodyAnswer := (false, "X") }

/-- A response-phase pause with a JSON body and a registered codec for its
content type, on a request that carried no post data. -/
def wEv9 : RequestPausedEvent :=
  { requestId := "r1", method := "GET", url := wUrl, headers := [],
    responseStatusCode := some 200, responseStatusText := some "OK",
    responseHeaders := [("content-type", "application/json")],
    responseBodyAnswer := (false, jsonBodyEncode [("a", "b")]) }

/-! ## Lower-casing lemmas -/

theorem isUpperAscii_toLower (c : Char) : isUpperAscii c.toLower = false := by
  unfold Char.toLower isUpperAscii
  by_cases h : c.toNat ≥ 65 ∧ c.toNat ≤ 90
  · rw [if_pos h]
    have hv : (c.toNat + 32).isValidChar := Or.inl (by omega)
    have ht : (Char.ofNat (c.toNat + 32)).toNat = c.toNat + 32 := by
      rw [Char.ofNat, dif_pos hv]; rfl
    simp only [ht, Bool.and_eq_false_iff, decide_eq_false_iff_not]
    omega
  · rw [if_neg h]
    simp only [Bool.and_eq_false_iff, decide_eq_false_iff_not]
    omega

theorem hasUpper_jsToLower (s : String) : hasUpper (jsToLower s) = false := by
  simp [hasUpper, jsToLower, isUpperAscii_toLower]

theorem toLower_eq_self_of_not_upper (c : Char) (h : isUpperAscii c = false) :
    Char.toLower c = c := by
  unfold Char.toLower
  rw [if_neg]
  intro hc
  simp only [isUpperAscii, Bool.and_eq_false_iff, decide_eq_false_iff_not] at h
  omega

theorem jsToLower_eq_self_of_not_hasUpper (s : String) (h : hasUpper s = false) :
    jsToLower s = s := by
  rcases s with ⟨l⟩
  simp only [hasUpper, List.any_eq_false] at h
  simp only [jsToLower]
  congr 1
  induction l with
  | nil => rfl
  | cons c t ih =>
    simp only [List.map_cons]
    rw [toLower_eq_self_of_not_upper c (by simpa using h c (by simp)),
      ih (fun x hx => h x (by simp [hx]))]

/-! ## Association-list structure lemmas -/

theorem akeys_aset {κ α : Type} [BEq κ] [LawfulBEq κ]
    (m : List (κ × α)) (k : κ) (v : α) :
    akeys (aset m k v) = if m.any (fun p => p.1 == k) then akeys m
      else akeys m ++ [k] := by
  unfold aset
  split
  · simp only [akeys, List.map_map]
    apply List.map_congr_left
    intro p _
    by_cases hp : p.1 == k
    · simp [hp, Function.comp]
      exact (eq_of_beq hp).symm
    · simp [hp, Function.comp]
  · simp [akeys]

theorem nodupKeys_aset {κ α : Type} [BEq κ] [LawfulBEq κ]
    (m : List (κ × α)) (k : κ) (v : α) (h : NodupKeys m) :
    NodupKeys (aset m k v) := by
  unfold NodupKeys
  rw [akeys_aset]
  split
  · exact h
  · rename_i hany
    rw [Bool.not_eq_true, List.any_eq_false] at hany
    refine List.Nodup.append h (List.nodup_singleton k) ?_
    intro x hx hk
    rcases List.mem_map.mp hx with ⟨p, hp, rfl⟩
    have := hany p hp
    simp only [List.mem_singleton] at hk
    simp [hk] at this

theorem nodupKeys_afromPairs {κ α : Type} [BEq κ] [LawfulBEq κ]
    (l : List (κ × α)) : NodupKeys (afromPairs l) := by
  unfold afromPairs
  have : ∀ acc : List (κ × α), NodupKeys acc →
      NodupKeys (l.foldl (fun acc p => aset acc p.1 p.2) acc) := by
    induction l with
    | nil => intro acc h; exact h
    | cons p t ih =>
      intro acc h
      exact ih (aset acc p.1 p.2) (nodupKeys_aset acc p.1 p.2 h)
  exact this [] (by simp [NodupKeys, akeys])

theorem mem_aset {κ α : Type} [BEq κ] [LawfulBEq κ]
    (m : List (κ × α)) (k : κ) (v : α) (p : κ × α) (h : p ∈ aset m k v) :
    p ∈ m ∨ p = (k, v) := by
  unfold aset at h
  split at h
  · rcases List.mem_map.mp h with ⟨q, hq, hqe⟩
    by_cases hqk : q.1 == k
    · right; simp [hqk] at hqe; exact hqe.symm
    · left; simp [hqk] at hqe; exact hqe ▸ hq
  · rcases List.mem_append.mp h with h | h
    · exact Or.inl h
    · exact Or.inr (List.mem_singleton.mp h)

theorem afromPairs_fold_keys {κ α : Type} [BEq κ] [LawfulBEq κ]
    (l : List (κ × α)) (p : κ × α) :
    ∀ acc : List (κ × α), p ∈ l.foldl (fun acc q => aset acc q.1 q.2) acc →
      p ∈ acc ∨ p.1 ∈ akeys l := by
  induction l with
  | nil => intro acc hacc; exact Or.inl hacc
  | cons q t ih =>
    intro acc hacc
    rcases ih (aset acc q.1 q.2) hacc with hmem | hkey
    · rcases mem_aset acc q.1 q.2 p hmem with hm | he
      · exact Or.inl hm
      · right; simp [he, akeys]
    · right; simp [akeys] at hkey ⊢; tauto

theorem mem_afromPairs_keys {κ α : Type} [BEq κ] [LawfulBEq κ]
    (l : List (κ × α)) (p : κ × α) (h : p ∈ afromPairs l) : p.1 ∈ akeys l := by
  unfold afromPairs at h
  rcases afromPairs_fold_keys l p [] h with hc | hk
  · cases hc
  · exact hk

/-! ## Reflexivity of the diffs -/

theorem mapcmp_refl (m : List (String × String)) : mapcmp m m = true := by
  simp [mapcmp]

theorem context_compare_refl (c : InternalInvocationContext) :
    c.compare c = ContextDiff.mk false false false false := by
  simp [InternalInvocationContext.compare, mapcmp_refl]

theorem returnValue_compare_refl (c : InternalInvocationReturnValue) :
    c.compare c = ReturnDiff.mk false false := by
  simp [InternalInvocationReturnValue.compare, mapcmp_refl]

/-! ## Behaviour of the header-normalisation pass -/

theorem mem_adel {κ α : Type} [BEq κ] [LawfulBEq κ]
    (m : List (κ × α)) (k : κ) (p : κ × α) (h : p ∈ adel m k) :
    p ∈ m ∧ p.1 ≠ k := by
  unfold adel at h
  have := List.mem_filter.mp h
  refine ⟨this.1, ?_⟩
  have h2 := this.2
  simp only [Bool.not_eq_true', beq_eq_false_iff_ne] at h2
  intro he
  exact absurd he (by simpa using h2)

theorem mem_akeys_adel {κ α : Type} [BEq κ] [LawfulBEq κ]
    (m : List (κ × α)) (k x : κ) (hx : x ∈ akeys m) (hne : x ≠ k) :
    x ∈ akeys (adel m k) := by
  rcases List.mem_map.mp hx with ⟨p, hp, rfl⟩
  refine List.mem_map.mpr ⟨p, ?_, rfl⟩
  unfold adel
  refine List.mem_filter.mpr ⟨hp, ?_⟩
  simpa using hne

theorem mem_akeys_aset_self {κ α : Type} [BEq κ] [LawfulBEq κ]
    (m : List (κ × α)) (k : κ) (v : α) : k ∈ akeys (aset m k v) := by
  rw [akeys_aset]
  split
  · rename_i hany
    rcases List.any_eq_true.mp hany with ⟨p, hp, hpk⟩
    exact (eq_of_beq hpk) ▸ List.mem_map.mpr ⟨p, hp, rfl⟩
  · simp

theorem mem_akeys_aset_mono {κ α : Type} [BEq κ] [LawfulBEq κ]
    (m : List (κ × α)) (k x : κ) (v : α) (hx : x ∈ akeys m) :
    x ∈ akeys (aset m k v) := by
  rw [akeys_aset]
  split
  · exact hx
  · simp [hx]

/-- Keys without an upper-case letter survive every normalisation step. -/
theorem headerStep_keeps_lower (acc : List (String × String))
    (p : String × String) (x : String) (hx : hasUpper x = false)
    (hmem : x ∈ akeys acc) : x ∈ akeys (headerStep acc p) := by
  unfold headerStep
  split
  · rename_i hup
    refine mem_akeys_aset_mono _ _ _ _ (mem_akeys_adel _ _ _ hmem ?_)
    intro he
    rw [he] at hx
    rw [hx] at hup
    cases hup
  · exact hmem

/-- After the pass, no remaining header name contains an upper-case
letter. -/
theorem normalizeHeaders_no_upper (m : List (String × String)) :
    ∀ p ∈ normalizeHeaders m, hasUpper p.1 = false := by
  have main : ∀ (l acc : List (String × String)),
      (∀ q ∈ acc, hasUpper q.1 = true → ∃ v, (q.1, v) ∈ l) →
      ∀ p ∈ l.foldl headerStep acc, hasUpper p.1 = false := by
    intro l
    induction l with
    | nil =>
      intro acc hinv p hp
      by_contra hne
      rcases hinv p hp (Bool.of_not_eq_false hne) with ⟨v, hv⟩
      cases hv
    | cons x t ih =>
      intro acc hinv p hp
      refine ih (headerStep acc x) ?_ p hp
      intro q hq hqu
      unfold headerStep at hq
      split at hq
      · rcases mem_aset _ _ _ _ hq with hdel | heq
        · have hdel' := mem_adel _ _ _ hdel
          rcases hinv q hdel'.1 hqu with ⟨v, hv⟩
          rcases List.mem_cons.mp hv with he | hm
          · exact absurd (Prod.ext_iff.mp he).1 hdel'.2
          · exact ⟨v, hm⟩
        · rw [heq] at hqu
          rw [hasUpper_jsToLower] at hqu
          cases hqu
      · rename_i hxu
        rcases hinv q hq hqu with ⟨v, hv⟩
        rcases List.mem_cons.mp hv with he | hm
        · exfalso
          apply hxu
          have hq1 : q.1 = x.1 := (Prod.ext_iff.mp he).1
          rw [← hq1, hqu]
        · exact ⟨v, hm⟩
  intro p hp
  refine main m m ?_ p hp
  intro q hq _
  exact ⟨q.2, hq⟩

/-- Every header name present before the pass survives it lower-cased. -/
theorem normalizeHeaders_keeps_names (m : List (String × String)) :
    ∀ p ∈ m, jsToLower p.1 ∈ akeys (normalizeHeaders m) := by
  have main : ∀ (l acc : List (String × String)),
      (∀ p ∈ m, (hasUpper p.1 = true ∧ ∃ v, (p.1, v) ∈ l) ∨
        jsToLower p.1 ∈ akeys acc) →
      ∀ p ∈ m, jsToLower p.1 ∈ akeys (l.foldl headerStep acc) := by
    intro l
    induction l with
    | nil =>
      intro acc hinv p hp
      rcases hinv p hp with ⟨_, v, hv⟩ | h
      · cases hv
      · exact h
    | cons x t ih =>
      intro acc hinv p hp
      refine ih (headerStep acc x) ?_ p hp
      intro q hq
      rcases hinv q hq with ⟨hqu, v, hv⟩ | h
      · rcases List.mem_cons.mp hv with he | hm
        · right
          have hq1 : q.1 = x.1 := (Prod.ext_iff.mp he).1
          unfold headerStep
          rw [if_pos (by rw [← hq1]; exact hqu)]
          rw [hq1]
          exact mem_akeys_aset_self _ _ _
        · exact Or.inl ⟨hqu, v, hm⟩
      · exact Or.inr (headerStep_keeps_lower acc x _ (hasUpper_jsToLower q.1) h)
  intro p hp
  refine main m m ?_ p hp
  intro q hq
  by_cases hu : hasUpper q.1 = true
  · exact Or.inl ⟨hu, q.2, hq⟩
  · right
    rw [jsToLower_eq_self_of_not_hasUpper q.1 (Bool.not_eq_true _ ▸ hu)]
    exact List.mem_map.mpr ⟨q, hq, rfl⟩

/-! ## Branch characterisations of the dispatcher -/

theorem requestPaused_unsupported (env : Env) (st : FetchInterceptorState)
    (ev : RequestPausedEvent) (hm : IsInvocationMethod ev.method = false) :
    requestPaused env st ev =
      { cmd := FetchCommand.continueRequest { requestId := ev.requestId },
        contextCache := st.contextCache, listenersCache := st.listenersCache } := by
  unfold requestPaused
  simp [hm]

theorem requestPaused_no_origin (env : Env) (st : FetchInterceptorState)
    (ev : RequestPausedEvent) (hm : IsInvocationMethod ev.method = true)
    (hp : listenersGet st.listeners ev.method ev.url.origin = none) :
    requestPaused env st ev =
      { cmd := FetchCommand.continueRequest { requestId := ev.requestId },
        contextCache := st.contextCache, listenersCache := st.listenersCache,
        consultedRoutes := true } := by
  unfold requestPaused
  simp [hm, hp]

theorem requestPaused_no_match (env : Env) (st : FetchInterceptorState)
    (ev : RequestPausedEvent) (p : List Route)
    (hm : IsInvocationMethod ev.method = true)
    (hp : listenersGet st.listeners ev.method ev.url.origin = some p)
    (hfind : (cachedEntries st ev.method ev.url.origin p).find?
      (fun r => (r.matcher ev.url.pathname).isSome) = none) :
    requestPaused env st ev =
      { cmd := FetchCommand.continueRequest { requestId := ev.requestId },
        contextCache := st.contextCache,
        listenersCache := updatedCache st ev.method ev.url.origin p,
        consultedRoutes := true } := by
  unfold requestPaused
  simp [hm, hp, hfind]

theorem requestPaused_request_phase (env : Env) (st : FetchInterceptorState)
    (ev : RequestPausedEvent) (p : List Route) (r : Route)
    (hm : IsInvocationMethod ev.method = true)
    (hp : listenersGet st.listeners ev.method ev.url.origin = some p)
    (hfind : (cachedEntries st ev.method ev.url.origin p).find?
      (fun r => (r.matcher ev.url.pathname).isSome) = some r)
    (hphase : ev.responseStatusCode = none ∨ ev.responseStatusText = none) :
    requestPaused env st ev =
      handleRequestPhase env st (updatedCache st ev.method ev.url.origin p) ev r := by
  unfold requestPaused
  rcases hphase with h | h
  · simp [hm, hp, hfind, h]
  · cases hsc : ev.responseStatusCode <;> simp [hm, hp, hfind, h, hsc]

theorem requestPaused_response_phase (env : Env) (st : FetchInterceptorState)
    (ev : RequestPausedEvent) (p : List Route) (r : Route) (code : Int)
    (text : String)
    (hm : IsInvocationMethod ev.method = true)
    (hp : listenersGet st.listeners ev.method ev.url.origin = some p)
    (hfind : (cachedEntries st ev.method ev.url.origin p).find?
      (fun r => (r.matcher ev.url.pathname).isSome) = some r)
    (hcode : ev.responseStatusCode = some code)
    (htext : ev.responseStatusText = some text) :
    requestPaused env st ev =
      handleResponsePhase env st (updatedCache st ev.method ev.url.origin p)
        ev r code text := by
  unfold requestPaused
  simp [hm, hp, hfind, hcode, htext]

/-- A map whose names are already lower-case is untouched by the pass. -/
theorem normalizeHeaders_of_no_upper (m : List (String × String))
    (h : ∀ p ∈ m, hasUpper p.1 = false) : normalizeHeaders m = m := by
  have main : ∀ (l acc : List (String × String)),
      (∀ p ∈ l, hasUpper p.1 = false) → l.foldl headerStep acc = acc := by
    intro l
    induction l with
    | nil => intro acc _; rfl
    | cons x t ih =>
      intro acc hl
      have hx : headerStep acc x = acc := by
        unfold headerStep
        rw [if_neg]
        rw [hl x (by simp)]
        simp
      simp only [List.foldl_cons, hx]
      exact ih acc (fun p hp => hl p (by simp [hp]))
  exact main m m h

/-- Both branches of the request-phase command constructor request
response interception. -/
theorem requestCommand_interceptResponse (env : Env)
    (st : FetchInterceptorState) (ev : RequestPausedEvent) (r : Route)
    (f : InternalInvocationContext → InternalInvocationContext) :
    (requestCommand env st ev r f).interceptResponse = some true := by
  unfold requestCommand
  by_cases h : (requestDiff st ev r f).modified = true <;> simp [h]

/-- C5: a pause event whose method lies outside the supported HTTP-method
enumeration, or which matches no registered route by method/origin/path, is
answered with a bare `continueRequest` carrying `requestId` only (no
overrides, no `interceptResponse`), no user callback runs, and an
unsupported method never reaches route resolution (`consultedRoutes` stays
`false`, and in all cases the invocation flags stay `false` in the
outcome records below). -/
theorem claim_C5_passthrough (env : Env) (st : FetchInterceptorState)
    (ev : RequestPausedEvent) (p : List Route) :
    (IsInvocationMethod ev.method = false →
      requestPaused env st ev =
        { cmd := FetchCommand.continueRequest { requestId := ev.requestId },
          contextCache := st.contextCache,
          listenersCache := st.listenersCache }) ∧
    (IsInvocationMethod ev.method = true →
      listenersGet st.listeners ev.method ev.url.origin = none →
      requestPaused env st ev =
        { cmd := FetchCommand.continueRequest { requestId := ev.requestId },
          contextCache := st.contextCache,
          listenersCache := st.listenersCache, consultedRoutes := true }) ∧
    (IsInvocationMethod ev.method = true →
      ∀ _hp : listenersGet st.listeners ev.method ev.url.origin = some p,
      (cachedEntries st ev.method ev.url.origin p).find?
          (fun r => (r.matcher ev.url.pathname).isSome) = none →
      requestPaused env st ev =
        { cmd := FetchCommand.continueRequest { requestId := ev.requestId },
          contextCache := st.contextCache,
          listenersCache := updatedCache st ev.method ev.url.origin p,
          consultedRoutes := true }) := by
  refine ⟨fun h => requestPaused_unsupported env st ev h,
    fun hm hp => requestPaused_no_origin env st ev hm hp,
    fun hm hp hf => requestPaused_no_match env st ev p hm hp hf⟩

theorem claim_C5_passthrough_witness :
    (requestPaused wEnv (wState wRouteId) { wEvReq with method := "BAD" } =
      { cmd := FetchCommand.continueRequest { requestId := "r1" },
        contextCache := (wState wRouteId).contextCache,
        listenersCache := (wState wRouteId).listenersCache }) ∧
    (requestPaused wEnv (wState wRouteId)
        { wEvReq with url := { wUrl with pathname := "/x" } } =
      { cmd := FetchCommand.continueRequest { requestId := "r1" },
        contextCache := (wState wRouteId).contextCache,
        listenersCache := updatedCache (wState wRouteId) "GET" "http://a" [wRouteId],
        consultedRoutes := true }) :=
  ⟨(claim_C5_passthrough wEnv (wState wRouteId)
      { wEvReq with method := "BAD" } []).1 (by decide),
   (claim_C5_passthrough wEnv (wState wRouteId)
      { wEvReq with url := { wUrl with pathname := "/x" } } [wRouteId]).2.2
      (by decide) rfl rfl⟩

/-- C3 is refuted on the code: a request-phase pause matching a registered
route whose callbacks carry no `onRequest` handler (here: a route with no
handlers at all) is continued with a bare `{ requestId }` in which
`interceptResponse` is absent. -/
theorem claim_C3_counterexample :
    (requestPaused wEnv (wState wRouteNone) wEvReq).reqCtxPre.isSome = true ∧
    (requestPaused wEnv (wState wRouteNone) wEvReq).cmd =
      FetchCommand.continueRequest { requestId := "r1" } :=
  ⟨rfl, rfl⟩

/-- C3 (amended): for a request-phase pause with a matched route, the
continue command requests response interception exactly when the route has
an `onRequest` handler (and then regardless of whether the diff found
changes or an `onResponse` handler exists); with no `onRequest` handler the
engine continues with `requestId` only and no `interceptResponse`. -/
theorem claim_C3_intercept (env : Env) (st : FetchInterceptorState)
    (ev : RequestPausedEvent) (p : List Route) (r : Route)
    (hm : IsInvocationMethod ev.method = true)
    (hp : listenersGet st.listeners ev.method ev.url.origin = some p)
    (hfind : (cachedEntries st ev.method ev.url.origin p).find?
      (fun r => (r.matcher ev.url.pathname).isSome) = some r)
    (hphase : ev.responseStatusCode = none ∨ ev.responseStatusText = none) :
    (∀ f, r.callbacks.onRequest = some f →
      ∃ c, (requestPaused env st ev).cmd = FetchCommand.continueRequest c ∧
        c.interceptResponse = some true) ∧
    (r.callbacks.onRequest = none →
      (requestPaused env st ev).cmd =
        FetchCommand.continueRequest { requestId := ev.requestId }) := by
  rw [requestPaused_request_phase env st ev p r hm hp hfind hphase]
  constructor
  · intro f hf
    unfold handleRequestPhase
    rw [hf]
    exact ⟨_, rfl, requestCommand_interceptResponse env st ev r f⟩
  · intro hf
    unfold handleRequestPhase
    rw [hf]

theorem claim_C3_intercept_witness :
    ∃ c, (requestPaused wEnv (wState wRouteId) wEvReq).cmd =
      FetchCommand.continueRequest c ∧ c.interceptResponse = some true :=
  (claim_C3_intercept wEnv (wState wRouteId) wEvReq [wRouteId] wRouteId
    rfl rfl rfl (Or.inl rfl)).1 (fun ctx => ctx) rfl

/-- C4 is refuted on the code: with a route that has an `onRequest` but no
`onResponse` handler, the request-phase dispatch creates the pending
record, the response-phase dispatch for the same identifier is handled
(a `continueResponse` goes out), yet the record is still present
afterwards — the `delete` sits after the no-`onResponse` early return. -/
theorem claim_C4_counterexample :
    (aget (requestPaused wEnv (wState wRouteReqOnly) wEvReq).contextCache
      "r1").isSome = true ∧
    (requestPaused wEnv wStAfterReq wEvResp).cmd =
      FetchCommand.continueResponse "r1" ∧
    (aget (requestPaused wEnv wStAfterReq wEvResp).contextCache
      "r1").isSome = true :=
  ⟨rfl, rfl, rfl⟩

/-- C4 (amended): the pending record for a request identifier is created
exactly when a request-phase pause is handled with a matched route and an
`onRequest` handler, and is removed only when the response-phase pause is
handled with a route whose `onResponse` handler runs; a no-op
response-phase pass (matched route without `onResponse`) leaves the
record in place, as do all pass-through paths. -/
theorem claim_C4_cache (env : Env) (st : FetchInterceptorState)
    (ev : RequestPausedEvent) (p : List Route) (r : Route) (code : Int)
    (text : String) :
    (∀ f, IsInvocationMethod ev.method = true →
      listenersGet st.listeners ev.method ev.url.origin = some p →
      (cachedEntries st ev.method ev.url.origin p).find?
          (fun r => (r.matcher ev.url.pathname).isSome) = some r →
      (ev.responseStatusCode = none ∨ ev.responseStatusText = none) →
      r.callbacks.onRequest = some f →
      (requestPaused env st ev).contextCache =
        aset st.contextCache ev.requestId (afterRequestCallback st ev r f)) ∧
    (IsInvocationMethod ev.method = true →
      listenersGet st.listeners ev.method ev.url.origin = some p →
      (cachedEntries st ev.method ev.url.origin p).find?
          (fun r => (r.matcher ev.url.pathname).isSome) = some r →
      (ev.responseStatusCode = none ∨ ev.responseStatusText = none) →
      r.callbacks.onRequest = none →
      (requestPaused env st ev).contextCache = st.contextCache) ∧
    (IsInvocationMethod ev.method = false →
      (requestPaused env st ev).contextCache = st.contextCache) ∧
    (IsInvocationMethod ev.method = true →
      listenersGet st.listeners ev.method ev.url.origin = none →
      (requestPaused env st ev).contextCache = st.contextCache) ∧
    (IsInvocationMethod ev.method = true →
      listenersGet st.listeners ev.method ev.url.origin = some p →
      (cachedEntries st ev.method ev.url.origin p).find?
          (fun r => (r.matcher ev.url.pathname).isSome) = none →
      (requestPaused env st ev).contextCache = st.contextCache) ∧
    (∀ f, IsInvocationMethod ev.method = true →
      listenersGet st.listeners ev.method ev.url.origin = some p →
      (cachedEntries st ev.method ev.url.origin p).find?
          (fun r => (r.matcher ev.url.pathname).isSome) = some r →
      ev.responseStatusCode = some code → ev.responseStatusText = some text →
      r.callbacks.onResponse = some f →
      (requestPaused env st ev).contextCache =
        adel st.contextCache ev.requestId) ∧
    (IsInvocationMethod ev.method = true →
      listenersGet st.listeners ev.method ev.url.origin = some p →
      (cachedEntries st ev.method ev.url.origin p).find?
          (fun r => (r.matcher ev.url.pathname).isSome) = some r →
      ev.responseStatusCode = some code → ev.responseStatusText = some text →
      r.callbacks.onResponse = none →
      (requestPaused env st ev).contextCache = st.contextCache) := by
  refine ⟨?_, ?_, ?_, ?_, ?_, ?_, ?_⟩
  · intro f hm hp hfind hphase hf
    rw [requestPaused_request_phase env st ev p r hm hp hfind hphase]
    unfold handleRequestPhase
    rw [hf]
  · intro hm hp hfind hphase hf
    rw [requestPaused_request_phase env st ev p r hm hp hfind hphase]
    unfold handleRequestPhase
    rw [hf]
  · intro hm
    rw [requestPaused_unsupported env st ev hm]
  · intro hm hp
    rw [requestPaused_no_origin env st ev hm hp]
  · intro hm hp hfind
    rw [requestPaused_no_match env st ev p hm hp hfind]
  · intro f hm hp hfind hcode htext hf
    rw [requestPaused_response_phase env st ev p r code text hm hp hfind hcode htext]
    unfold handleResponsePhase
    rw [hf]
  · intro hm hp hfind hcode htext hf
    rw [requestPaused_response_phase env st ev p r code text hm hp hfind hcode htext]
    unfold handleResponsePhase
    rw [hf]

theorem claim_C4_cache_witness :
    (requestPaused wEnv (wState wRouteId) wEvReq).contextCache =
      aset (wState wRouteId).contextCache "r1"
        (afterRequestCallback (wState wRouteId) wEvReq wRouteId (fun ctx => ctx)) ∧
    (requestPaused wEnv (wState wRouteId) wEvResp).contextCache =
      adel (wState wRouteId).contextCache "r1" :=
  ⟨(claim_C4_cache wEnv (wState wRouteId) wEvReq [wRouteId] wRouteId 0 "").1
      (fun ctx => ctx) rfl rfl rfl (Or.inl rfl) rfl,
   (claim_C4_cache wEnv (wState wRouteId) wEvResp [wRouteId] wRouteId 200 "OK").2.2.2.2.2.1
      (fun rv => rv) rfl rfl rfl rfl rfl rfl⟩

/-- C6: a response-phase pause with a matched route and a status code in
`[300, 400)` never calls the transport's `Fetch.getResponseBody`
capability and builds its return value over an empty body. -/
theorem claim_C6_redirect (env : Env) (st : FetchInterceptorState)
    (ev : RequestPausedEvent) (p : List Route) (r : Route) (code : Int)
    (text : String)
    (hm : IsInvocationMethod ev.method = true)
    (hp : listenersGet st.listeners ev.method ev.url.origin = some p)
    (hfind : (cachedEntries st ev.method ev.url.origin p).find?
      (fun r => (r.matcher ev.url.pathname).isSome) = some r)
    (hcode : ev.responseStatusCode = some code)
    (htext : ev.responseStatusText = some text)
    (h300 : 300 ≤ code) (h400 : code < 400)
    (hb64 : env.b64decode "" = "") :
    (requestPaused env st ev).calledGetResponseBody = false ∧
    (requestPaused env st ev).rvPre.map (fun rv => rv.body) = some "" := by
  rw [requestPaused_response_phase env st ev p r code text hm hp hfind hcode htext]
  have hred : respIsRedirect code = true := by
    simp only [respIsRedirect, Bool.and_eq_true, decide_eq_true_eq]
    omega
  unfold handleResponsePhase
  cases hr : r.callbacks.onResponse <;>
    simp [hred, buildReturnValue, respOrigBody, respRawAnswer, hb64]

theorem claim_C6_redirect_witness :
    (requestPaused wEnv (wState wRouteId) wEv302).calledGetResponseBody = false ∧
    (requestPaused wEnv (wState wRouteId) wEv302).rvPre.map
      (fun rv => rv.body) = some "" :=
  claim_C6_redirect wEnv (wState wRouteId) wEv302
    [wRouteId] wRouteId 302 "F" rfl rfl rfl rfl rfl (by decide) (by decide) rfl

/-- C9: for a response-phase pause whose originating request carried no
post data, the parsed form in the return value handed to `onResponse` is
empty — the parse is gated on the request's `hasPostData` flag, whatever
the response body or registered codecs. -/
theorem claim_C9_postdata_gate (env : Env) (st : FetchInterceptorState)
    (ev : RequestPausedEvent) (p : List Route) (r : Route) (code : Int)
    (text : String)
    (hm : IsInvocationMethod ev.method = true)
    (hp : listenersGet st.listeners ev.method ev.url.origin = some p)
    (hfind : (cachedEntries st ev.method ev.url.origin p).find?
      (fun r => (r.matcher ev.url.pathname).isSome) = some r)
    (hcode : ev.responseStatusCode = some code)
    (htext : ev.responseStatusText = some text)
    (hpost : ev.hasPostData = false) :
    (requestPaused env st ev).rvPre.map (fun rv => rv.form) = some [] := by
  have hform : (buildReturnValue env st ev code text).form = [] := by
    simp only [buildReturnValue]
    cases getBodyParser st.bodyParser
        ((aget (afromPairs (lowerPairs ev.responseHeaders)) "content-type").getD "") <;>
      simp [hpost, afromPairs]
  rw [requestPaused_response_phase env st ev p r code text hm hp hfind hcode htext]
  unfold handleResponsePhase
  cases hr : r.callbacks.onResponse <;> simp [hform]

/-- The context handed to `onRequest` only carries lower-cased header
names (they went through `name.toLowerCase()` on receipt). -/
theorem buildRequestContext_headers_no_upper (st : FetchInterceptorState)
    (ev : RequestPausedEvent) (r : Route) :
    ∀ q ∈ (buildRequestContext st ev r).requestHeaders, hasUpper q.1 = false := by
  intro q hq
  have hk : q.1 ∈ akeys (lowerPairs ev.headers) :=
    mem_afromPairs_keys (lowerPairs ev.headers) q hq
  simp only [akeys, lowerPairs, List.map_map, List.mem_map] at hk
  rcases hk with ⟨x, _, hx⟩
  rw [← hx]
  exact hasUpper_jsToLower x.1

/-- Likewise for the return value handed to `onResponse`. -/
theorem buildReturnValue_headers_no_upper (env : Env)
    (st : FetchInterceptorState) (ev : RequestPausedEvent) (code : Int)
    (text : String) :
    ∀ q ∈ (buildReturnValue env st ev code text).responseHeaders,
      hasUpper q.1 = false := by
  intro q hq
  have hk : q.1 ∈ akeys (lowerPairs ev.responseHeaders) :=
    mem_afromPairs_keys (lowerPairs ev.responseHeaders) q hq
  simp only [akeys, lowerPairs, List.map_map, List.mem_map] at hk
  rcases hk with ⟨x, _, hx⟩
  rw [← hx]
  exact hasUpper_jsToLower x.1

/-- A callback that returns its context unchanged also survives the
header-normalisation pass unchanged. -/
theorem afterRequestCallback_of_id (st : FetchInterceptorState)
    (ev : RequestPausedEvent) (r : Route)
    (f : InternalInvocationContext → InternalInvocationContext)
    (hid : f (buildRequestContext st ev r) = buildRequestContext st ev r) :
    afterRequestCallback st ev r f = buildRequestContext st ev r := by
  unfold afterRequestCallback
  rw [hid]
  simp only [normalizeHeaders_of_no_upper
    (buildRequestContext st ev r).requestHeaders
    (buildRequestContext_headers_no_upper st ev r)]

theorem afterResponseCallback_of_id (env : Env) (st : FetchInterceptorState)
    (ev : RequestPausedEvent) (code : Int) (text : String)
    (g : InternalInvocationReturnValue → InternalInvocationReturnValue)
    (hid : g (buildReturnValue env st ev code text) =
      buildReturnValue env st ev code text) :
    afterResponseCallback env st ev code text g =
      buildReturnValue env st ev code text := by
  unfold afterResponseCallback
  rw [hid]
  simp only [normalizeHeaders_of_no_upper
    (buildReturnValue env st ev code text).responseHeaders
    (buildReturnValue_headers_no_upper env st ev code text)]

/-- If the diff saw no change, the continue command carries no overridden
field. -/
theorem requestCommand_minimal (env : Env) (st : FetchInterceptorState)
    (ev : RequestPausedEvent) (r : Route)
    (f : InternalInvocationContext → InternalInvocationContext)
    (h : (requestDiff st ev r f).modified = false) :
    requestCommand env st ev r f =
      { requestId := ev.requestId, interceptResponse := some true } := by
  unfold requestCommand
  simp [h]

/-- If the diff saw a change, every mutable field of the continue command
is specified. -/
theorem requestCommand_full (env : Env) (st : FetchInterceptorState)
    (ev : RequestPausedEvent) (r : Route)
    (f : InternalInvocationContext → InternalInvocationContext)
    (h : (requestDiff st ev r f).modified = true) :
    (requestCommand env st ev r f).url.isSome = true ∧
    (requestCommand env st ev r f).method.isSome = true ∧
    (requestCommand env st ev r f).headers.isSome = true ∧
    (requestCommand env st ev r f).postData.isSome = true := by
  unfold requestCommand
  simp [h]

theorem responseCommand_minimal (env : Env) (st : FetchInterceptorState)
    (ev : RequestPausedEvent) (code : Int) (text : String)
    (g : InternalInvocationReturnValue → InternalInvocationReturnValue)
    (h : (responseDiff env st ev code text g).modified = false) :
    responseCommand env st ev code text g =
      { requestId := ev.requestId, responseCode := code } := by
  unfold responseCommand
  simp [h]

theorem responseCommand_full (env : Env) (st : FetchInterceptorState)
    (ev : RequestPausedEvent) (code : Int) (text : String)
    (g : InternalInvocationReturnValue → InternalInvocationReturnValue)
    (h : (responseDiff env st ev code text g).modified = true) :
    (responseCommand env st ev code text g).responsePhrase.isSome = true ∧
    (responseCommand env st ev code text g).responseHeaders.isSome = true ∧
    (responseCommand env st ev code text g).body.isSome = true := by
  unfold responseCommand
  simp [h]

/-- Any single compared field differing makes the diff report a
modification. -/
theorem context_compare_modified (src tgt : InternalInvocationContext)
    (h : src.url ≠ tgt.url ∨ src.method ≠ tgt.method ∨
      mapcmp src.requestHeaders tgt.requestHeaders = false ∨
      mapcmp src.params tgt.params = false ∨
      mapcmp src.query tgt.query = false ∨
      mapcmp src.form tgt.form = false ∨ src.body ≠ tgt.body) :
    (src.compare tgt).modified = true := by
  simp only [InternalInvocationContext.compare, Bool.or_eq_true,
    bne_iff_ne, Bool.not_eq_true', beq_eq_false_iff_ne]
  rcases h with h | h | h | h | h | h | h
  · simp [Ne.symm h]
  · simp [Ne.symm h]
  · simp [h]
  · simp [h]
  · simp [h]
  · simp [h]
  · simp [h]

theorem returnValue_compare_modified (src tgt : InternalInvocationReturnValue)
    (h : src.statusCode ≠ tgt.statusCode ∨ src.statusText ≠ tgt.statusText ∨
      mapcmp src.responseHeaders tgt.responseHeaders = false ∨
      mapcmp src.form tgt.form = false ∨ src.body ≠ tgt.body) :
    (src.compare tgt).modified = true := by
  simp only [InternalInvocationReturnValue.compare, Bool.or_eq_true,
    bne_iff_ne, Bool.not_eq_true', beq_eq_false_iff_ne]
  rcases h with h | h | h | h | h
  · simp [Ne.symm h]
  · simp [Ne.symm h]
  · simp [h]
  · simp [h]
  · simp [h]

/-- C1: with a matched route and an invoked callback, the continue/fulfill
command carries overridden fields exactly when the field-by-field diff
reports a modification: an unchanged callback yields the minimal command
(request: `requestId` and `interceptResponse`; response: `requestId` and
the original status code), any single compared field differing makes the
diff fire, and a fired diff makes the command specify every mutable field
(request: url, method, headers, body; response: status code, status text,
headers, body). -/
theorem claim_C1_diff_gates (env : Env) (st : FetchInterceptorState)
    (ev : RequestPausedEvent) (p : List Route) (r : Route) (code : Int)
    (text : String)
    (hm : IsInvocationMethod ev.method = true)
    (hp : listenersGet st.listeners ev.method ev.url.origin = some p)
    (hfind : (cachedEntries st ev.method ev.url.origin p).find?
      (fun r => (r.matcher ev.url.pathname).isSome) = some r) :
    (∀ f, r.callbacks.onRequest = some f →
      (ev.responseStatusCode = none ∨ ev.responseStatusText = none) →
      ∃ c, (requestPaused env st ev).cmd = FetchCommand.continueRequest c ∧
        c.requestId = ev.requestId ∧ c.interceptResponse = some true ∧
        ((requestDiff st ev r f).modified = false →
          c.url = none ∧ c.method = none ∧ c.headers = none ∧ c.postData = none) ∧
        ((requestDiff st ev r f).modified = true →
          c.url.isSome = true ∧ c.method.isSome = true ∧
          c.headers.isSome = true ∧ c.postData.isSome = true) ∧
        (f (buildRequestContext st ev r) = buildRequestContext st ev r →
          (requestDiff st ev r f).modified = false) ∧
        ((buildRequestContext st ev r).url ≠ (afterRequestCallback st ev r f).url ∨
          (buildRequestContext st ev r).method ≠ (afterRequestCallback st ev r f).method ∨
          mapcmp (buildRequestContext st ev r).requestHeaders
            (afterRequestCallback st ev r f).requestHeaders = false ∨
          mapcmp (buildRequestContext st ev r).params
            (afterRequestCallback st ev r f).params = false ∨
          mapcmp (buildRequestContext st ev r).query
            (afterRequestCallback st ev r f).query = false ∨
          mapcmp (buildRequestContext st ev r).form
            (afterRequestCallback st ev r f).form = false ∨
          (buildRequestContext st ev r).body ≠ (afterRequestCallback st ev r f).body →
          (requestDiff st ev r f).modified = true)) ∧
    (∀ g, r.callbacks.onResponse = some g →
      ev.responseStatusCode = some code → ev.responseStatusText = some text →
      ∃ cf, (requestPaused env st ev).cmd = FetchCommand.fulfillRequest cf ∧
        cf.requestId = ev.requestId ∧
        ((responseDiff env st ev code text g).modified = false →
          cf.responseCode = code ∧ cf.responsePhrase = none ∧
          cf.responseHeaders = none ∧ cf.body = none) ∧
        ((responseDiff env st ev code text g).modified = true →
          cf.responsePhrase.isSome = true ∧ cf.responseHeaders.isSome = true ∧
          cf.body.isSome = true) ∧
        (g (buildReturnValue env st ev code text) =
            buildReturnValue env st ev code text →
          (responseDiff env st ev code text g).modified = false) ∧
        ((buildReturnValue env st ev code text).statusCode ≠
            (afterResponseCallback env st ev code text g).statusCode ∨
          (buildReturnValue env st ev code text).statusText ≠
            (afterResponseCallback env st ev code text g).statusText ∨
          mapcmp (buildReturnValue env st ev code text).responseHeaders
            (afterResponseCallback env st ev code text g).responseHeaders = false ∨
          mapcmp (buildReturnValue env st ev code text).form
            (afterResponseCallback env st ev code text g).form = false ∨
          (buildReturnValue env st ev code text).body ≠
            (afterResponseCallback env st ev code text g).body →
          (responseDiff env st ev code text g).modified = true)) := by
  constructor
  · intro f hf hphase
    rw [requestPaused_request_phase env st ev p r hm hp hfind hphase]
    unfold handleRequestPhase
    rw [hf]
    refine ⟨requestCommand env st ev r f, rfl, ?_, requestCommand_interceptResponse env st ev r f, ?_, ?_, ?_, ?_⟩
    · rw [requestCommand]
      split <;> rfl
    · intro h
      rw [requestCommand_minimal env st ev r f h]
      exact ⟨rfl, rfl, rfl, rfl⟩
    · exact requestCommand_full env st ev r f
    · intro hid
      unfold requestDiff
      rw [afterRequestCallback_of_id st ev r f hid, context_compare_refl]
    · intro h
      exact context_compare_modified _ _ h
  · intro g hg hcode htext
    rw [requestPaused_response_phase env st ev p r code text hm hp hfind hcode htext]
    unfold handleResponsePhase
    rw [hg]
    refine ⟨responseCommand env st ev code text g, rfl, ?_, ?_, ?_, ?_, ?_⟩
    · rw [responseCommand]
      split <;> rfl
    · intro h
      rw [responseCommand_minimal env st ev code text g h]
      exact ⟨rfl, rfl, rfl, rfl⟩
    · exact responseCommand_full env st ev code text g
    · intro hid
      unfold responseDiff
      rw [afterResponseCallback_of_id env st ev code text g hid, returnValue_compare_refl]
    · intro h
      exact returnValue_compare_modified _ _ h

theorem claim_C9_postdata_gate_witness :
    (getBodyParser (wState wRouteId).bodyParser "application/json").isSome = true ∧
    (requestPaused wEnv (wState wRouteId) wEv9).rvPre.map
      (fun rv => rv.body.isEmpty) = some false ∧
    (requestPaused wEnv (wState wRouteId) wEv9).rvPre.map
      (fun rv => rv.form) = some [] :=
  ⟨rfl, rfl,
   claim_C9_postdata_gate wEnv (wState wRouteId) wEv9 [wRouteId] wRouteId
     200 "OK" rfl rfl rfl rfl rfl rfl⟩

theorem claim_C1_diff_gates_witness :
    ∃ c, (requestPaused wEnv (wState wRouteId) wEvReq).cmd =
      FetchCommand.continueRequest c ∧ c.requestId = "r1" ∧
      c.interceptResponse = some true ∧ c.url = none ∧ c.method = none ∧
      c.headers = none ∧ c.postData = none := by
  obtain ⟨c, hcmd, hrid, hint, hmin, _, hid, _⟩ :=
    (claim_C1_diff_gates wEnv (wState wRouteId) wEvReq [wRouteId] wRouteId
      200 "OK" rfl rfl rfl).1 (fun ctx => ctx) rfl (Or.inl rfl)
  obtain ⟨h1, h2, h3, h4⟩ := hmin (hid rfl)
  exact ⟨c, hcmd, hrid, hint, h1, h2, h3, h4⟩

/-- A successful lookup pins its key to a key present in the map. -/
theorem aget_mem_key {κ α : Type} [BEq κ] [LawfulBEq κ]
    (m : List (κ × α)) (k : κ) (v : α) (h : aget m k = some v) :
    ∃ p ∈ m, p.1 = k := by
  unfold aget at h
  cases hf : m.find? (fun p => p.1 == k) with
  | none => rw [hf] at h; cases h
  | some q =>
    exact ⟨q, List.mem_of_find?_eq_some hf, eq_of_beq (by simpa using List.find?_some hf)⟩

/-- When the diff fired, the continue command's header list is the
post-callback, re-cased header map. -/
theorem requestCommand_headers (env : Env) (st : FetchInterceptorState)
    (ev : RequestPausedEvent) (r : Route)
    (f : InternalInvocationContext → InternalInvocationContext)
    (h : (requestDiff st ev r f).modified = true) :
    (requestCommand env st ev r f).headers =
      some (afterRequestCallback st ev r f).requestHeaders := by
  unfold requestCommand
  simp [h]

theorem responseCommand_headers (env : Env) (st : FetchInterceptorState)
    (ev : RequestPausedEvent) (code : Int) (text : String)
    (g : InternalInvocationReturnValue → InternalInvocationReturnValue)
    (h : (responseDiff env st ev code text g).modified = true) :
    (responseCommand env st ev code text g).responseHeaders =
      some (afterResponseCallback env st ev code text g).responseHeaders := by
  unfold responseCommand
  simp [h]

/-- C7 is refuted on the code: the engine lower-cases received header
names, and the map handed to the handler is looked up case-sensitively,
so the handler's lookup under the exact casing the header was received
with (`Content-Type`) fails while the lower-cased lookup succeeds. -/
theorem claim_C7_counterexample :
    (requestPaused wEnv (wState wRouteId) wEv7).reqCtxPre.map
      (fun ctx => aget ctx.requestHeaders "Content-Type") = some none ∧
    (requestPaused wEnv (wState wRouteId) wEv7).reqCtxPre.map
      (fun ctx => aget ctx.requestHeaders "content-type") =
      some (some "text/html") :=
  ⟨rfl, rfl⟩

/-- C7 (amended): header names the handler wrote are transmitted
lower-cased in both phases — every name in an emitted header list is free
of upper-case letters and every name the handler wrote survives
lower-cased — while received names are lower-cased before the handler
sees them and handler lookups are case-sensitive: a lookup can only
succeed on a name with no upper-case letter. -/
theorem claim_C7_lowercase (env : Env) (st : FetchInterceptorState)
    (ev : RequestPausedEvent) (p : List Route) (r : Route) (code : Int)
    (text : String)
    (hm : IsInvocationMethod ev.method = true)
    (hp : listenersGet st.listeners ev.method ev.url.origin = some p)
    (hfind : (cachedEntries st ev.method ev.url.origin p).find?
      (fun r => (r.matcher ev.url.pathname).isSome) = some r) :
    (∀ f, r.callbacks.onRequest = some f →
      (ev.responseStatusCode = none ∨ ev.responseStatusText = none) →
      ∀ c hs, (requestPaused env st ev).cmd = FetchCommand.continueRequest c →
        c.headers = some hs →
        (∀ q ∈ hs, hasUpper q.1 = false) ∧
        (∀ q ∈ (f (buildRequestContext st ev r)).requestHeaders,
          jsToLower q.1 ∈ akeys hs)) ∧
    (∀ g, r.callbacks.onResponse = some g →
      ev.responseStatusCode = some code → ev.responseStatusText = some text →
      ∀ cf hs, (requestPaused env st ev).cmd = FetchCommand.fulfillRequest cf →
        cf.responseHeaders = some hs →
        (∀ q ∈ hs, hasUpper q.1 = false) ∧
        (∀ q ∈ (g (buildReturnValue env st ev code text)).responseHeaders,
          jsToLower q.1 ∈ akeys hs)) ∧
    (∀ n v, aget (buildRequestContext st ev r).requestHeaders n = some v →
      hasUpper n = false) ∧
    (∀ n v, aget (buildReturnValue env st ev code text).responseHeaders n = some v →
      hasUpper n = false) := by
  refine ⟨?_, ?_, ?_, ?_⟩
  · intro f hf hphase c hs hcmd hhs
    rw [requestPaused_request_phase env st ev p r hm hp hfind hphase] at hcmd
    unfold handleRequestPhase at hcmd
    rw [hf] at hcmd
    simp only [FetchCommand.continueRequest.injEq] at hcmd
    subst hcmd
    by_cases hmod : (requestDiff st ev r f).modified = true
    · rw [requestCommand_headers env st ev r f hmod] at hhs
      have hhs' : hs = (afterRequestCallback st ev r f).requestHeaders :=
        (Option.some.injEq _ _ ▸ hhs).symm
      subst hhs'
      constructor
      · intro q hq
        exact normalizeHeaders_no_upper _ q hq
      · intro q hq
        exact normalizeHeaders_keeps_names _ q hq
    · rw [requestCommand_minimal env st ev r f (Bool.not_eq_true _ ▸ hmod)] at hhs
      cases hhs
  · intro g hg hcode htext cf hs hcmd hhs
    rw [requestPaused_response_phase env st ev p r code text hm hp hfind hcode htext] at hcmd
    unfold handleResponsePhase at hcmd
    rw [hg] at hcmd
    simp only [FetchCommand.fulfillRequest.injEq] at hcmd
    subst hcmd
    by_cases hmod : (responseDiff env st ev code text g).modified = true
    · rw [responseCommand_headers env st ev code text g hmod] at hhs
      have hhs' : hs = (afterResponseCallback env st ev code text g).responseHeaders :=
        (Option.some.injEq _ _ ▸ hhs).symm
      subst hhs'
      constructor
      · intro q hq
        exact normalizeHeaders_no_upper _ q hq
      · intro q hq
        exact normalizeHeaders_keeps_names _ q hq
    · rw [responseCommand_minimal env st ev code text g (Bool.not_eq_true _ ▸ hmod)] at hhs
      cases hhs
  · intro n v hn
    rcases aget_mem_key _ n v hn with ⟨q, hq, rfl⟩
    exact buildRequestContext_headers_no_upper st ev r q hq
  · intro n v hn
    rcases aget_mem_key _ n v hn with ⟨q, hq, rfl⟩
    exact buildReturnValue_headers_no_upper env st ev code text q hq

theorem claim_C7_lowercase_witness :
    (afterRequestCallback (wState wRouteHdr) wEvReq wRouteHdr wFHdr).requestHeaders =
      [("foo", "1")] ∧
    "foo" ∈ akeys (afterRequestCallback (wState wRouteHdr) wEvReq wRouteHdr
      wFHdr).requestHeaders := by
  refine ⟨rfl, ?_⟩
  have h := (claim_C7_lowercase wEnv (wState wRouteHdr) wEvReq [wRouteHdr]
      wRouteHdr 200 "OK" rfl rfl rfl).1 wFHdr rfl (Or.inl rfl)
      (requestCommand wEnv (wState wRouteHdr) wEvReq wRouteHdr wFHdr)
      (afterRequestCallback (wState wRouteHdr) wEvReq wRouteHdr wFHdr).requestHeaders
      rfl (requestCommand_headers wEnv (wState wRouteHdr) wEvReq wRouteHdr wFHdr rfl)
  exact h.2 ("FoO", "1") (by decide)

/-- When the diff fired, the continue command's body is the chosen body
run through the base64 transfer encoding. -/
theorem requestCommand_postData (env : Env) (st : FetchInterceptorState)
    (ev : RequestPausedEvent) (r : Route)
    (f : InternalInvocationContext → InternalInvocationContext)
    (h : (requestDiff st ev r f).modified = true) :
    (requestCommand env st ev r f).postData = some (env.b64encode (
      match getBodyParser st.bodyParser
          ((aget (afterRequestCallback st ev r f).requestHeaders "content-type").getD "") with
      | some pp => if (requestDiff st ev r f).modifiedForm then
            pp.encode (afromPairs (afterRequestCallback st ev r f).form)
          else if (afterRequestCallback st ev r f).body.isEmpty then reqOrigBody ev
          else (afterRequestCallback st ev r f).body
      | none => if (afterRequestCallback st ev r f).body.isEmpty then reqOrigBody ev
          else (afterRequestCallback st ev r f).body)) := by
  unfold requestCommand
  simp [h]

theorem responseCommand_body (env : Env) (st : FetchInterceptorState)
    (ev : RequestPausedEvent) (code : Int) (text : String)
    (g : InternalInvocationReturnValue → InternalInvocationReturnValue)
    (h : (responseDiff env st ev code text g).modified = true) :
    (responseCommand env st ev code text g).body = some (
      let chosen := match getBodyParser st.bodyParser
          ((aget (afterResponseCallback env st ev code text g).responseHeaders "content-type").getD "") with
        | some pp => if (responseDiff env st ev code text g).modifiedForm then
              pp.encode (afromPairs (afterResponseCallback env st ev code text g).form)
            else if (afterResponseCallback env st ev code text g).body.isEmpty then
              (buildReturnValue env st ev code text).body
            else (afterResponseCallback env st ev code text g).body
        | none => if (afterResponseCallback env st ev code text g).body.isEmpty then
              (buildReturnValue env st ev code text).body
            else (afterResponseCallback env st ev code text g).body
      if (respRawAnswer ev code).1 then env.b64encode chosen else chosen) := by
  unfold responseCommand
  simp [h]

/-- C2: whenever the diff fired and a body is emitted, the body is chosen
in priority order — the codec's encoding of the post-callback form when
the form was modified and a codec exists for the (possibly changed)
content type, else the post-callback raw body when non-empty, else the
originally received body — in both the request-phase continue command
and the response-phase fulfill command (the latter re-applying the
transport's base64 encoding). -/
theorem claim_C2_body_priority (env : Env) (st : FetchInterceptorState)
    (ev : RequestPausedEvent) (p : List Route) (r : Route) (code : Int)
    (text : String)
    (hm : IsInvocationMethod ev.method = true)
    (hp : listenersGet st.listeners ev.method ev.url.origin = some p)
    (hfind : (cachedEntries st ev.method ev.url.origin p).find?
      (fun r => (r.matcher ev.url.pathname).isSome) = some r) :
    (∀ f, r.callbacks.onRequest = some f →
      (ev.responseStatusCode = none ∨ ev.responseStatusText = none) →
      (requestDiff st ev r f).modified = true →
      ∀ c, (requestPaused env st ev).cmd = FetchCommand.continueRequest c →
        (∀ bp, (requestDiff st ev r f).modifiedForm = true →
          getBodyParser st.bodyParser
            ((aget (afterRequestCallback st ev r f).requestHeaders "content-type").getD "") = some bp →
          c.postData = some (env.b64encode
            (bp.encode (afromPairs (afterRequestCallback st ev r f).form)))) ∧
        (((requestDiff st ev r f).modifiedForm = false ∨
          getBodyParser st.bodyParser
            ((aget (afterRequestCallback st ev r f).requestHeaders "content-type").getD "") = none) →
          (afterRequestCallback st ev r f).body ≠ "" →
          c.postData = some (env.b64encode (afterRequestCallback st ev r f).body)) ∧
        (((requestDiff st ev r f).modifiedForm = false ∨
          getBodyParser st.bodyParser
            ((aget (afterRequestCallback st ev r f).requestHeaders "content-type").getD "") = none) →
          (afterRequestCallback st ev r f).body = "" →
          c.postData = some (env.b64encode (reqOrigBody ev)))) ∧
    (∀ g, r.callbacks.onResponse = some g →
      ev.responseStatusCode = some code → ev.responseStatusText = some text →
      (responseDiff env st ev code text g).modified = true →
      ∀ cf, (requestPaused env st ev).cmd = FetchCommand.fulfillRequest cf →
        (∀ bp, (responseDiff env st ev code text g).modifiedForm = true →
          getBodyParser st.bodyParser
            ((aget (afterResponseCallback env st ev code text g).responseHeaders "content-type").getD "") = some bp →
          cf.body = some (
            let chosen := bp.encode (afromPairs (afterResponseCallback env st ev code text g).form)
            if (respRawAnswer ev code).1 then env.b64encode chosen else chosen)) ∧
        (((responseDiff env st ev code text g).modifiedForm = false ∨
          getBodyParser st.bodyParser
            ((aget (afterResponseCallback env st ev code text g).responseHeaders "content-type").getD "") = none) →
          (afterResponseCallback env st ev code text g).body ≠ "" →
          cf.body = some (
            let chosen := (afterResponseCallback env st ev code text g).body
            if (respRawAnswer ev code).1 then env.b64encode chosen else chosen)) ∧
        (((responseDiff env st ev code text g).modifiedForm = false ∨
          getBodyParser st.bodyParser
            ((aget (afterResponseCallback env st ev code text g).responseHeaders "content-type").getD "") = none) →
          (afterResponseCallback env st ev code text g).body = "" →
          cf.body = some (
            let chosen := (buildReturnValue env st ev code text).body
            if (respRawAnswer ev code).1 then env.b64encode chosen else chosen))) := by
  constructor
  · intro f hf hphase hmod c hcmd
    rw [requestPaused_request_phase env st ev p r hm hp hfind hphase] at hcmd
    unfold handleRequestPhase at hcmd
    rw [hf] at hcmd
    simp only [FetchCommand.continueRequest.injEq] at hcmd
    subst hcmd
    rw [requestCommand_postData env st ev r f hmod]
    refine ⟨?_, ?_, ?_⟩
    · intro bp hform hbp
      rw [hbp]
      simp [hform]
    · intro hdisj hne
      have hemp : (afterRequestCallback st ev r f).body.isEmpty = false := by
        rcases he : (afterRequestCallback st ev r f).body.isEmpty with _ | _
        · rfl
        · exact absurd ((String.isEmpty_iff _).mp he) hne
      rcases hdisj with hform | hbp
      · cases hbp' : getBodyParser st.bodyParser
            ((aget (afterRequestCallback st ev r f).requestHeaders "content-type").getD "") <;>
          simp [hform, hemp]
      · rw [hbp]
        simp [hemp]
    · intro hdisj he
      have hemp : (afterRequestCallback st ev r f).body.isEmpty = true :=
        (String.isEmpty_iff _).mpr he
      rcases hdisj with hform | hbp
      · cases hbp' : getBodyParser st.bodyParser
            ((aget (afterRequestCallback st ev r f).requestHeaders "content-type").getD "") <;>
          simp [hform, hemp]
      · rw [hbp]
        simp [hemp]
  · intro g hg hcode htext hmod cf hcmd
    rw [requestPaused_response_phase env st ev p r code text hm hp hfind hcode htext] at hcmd
    unfold handleResponsePhase at hcmd
    rw [hg] at hcmd
    simp only [FetchCommand.fulfillRequest.injEq] at hcmd
    subst hcmd
    rw [responseCommand_body env st ev code text g hmod]
    refine ⟨?_, ?_, ?_⟩
    · intro bp hform hbp
      rw [hbp]
      simp [hform]
    · intro hdisj hne
      have hemp : (afterResponseCallback env st ev code text g).body.isEmpty = false := by
        rcases he : (afterResponseCallback env st ev code text g).body.isEmpty with _ | _
        · rfl
        · exact absurd ((String.isEmpty_iff _).mp he) hne
      rcases hdisj with hform | hbp
      · cases hbp' : getBodyParser st.bodyParser
            ((aget (afterResponseCallback env st ev code text g).responseHeaders "content-type").getD "") <;>
          simp [hform, hemp]
      · rw [hbp]
        simp [hemp]
    · intro hdisj he
      have hemp : (afterResponseCallback env st ev code text g).body.isEmpty = true :=
        (String.isEmpty_iff _).mpr he
      rcases hdisj with hform | hbp
      · cases hbp' : getBodyParser st.bodyParser
            ((aget (afterResponseCallback env st ev code text g).responseHeaders "content-type").getD "") <;>
          simp [hform, hemp]
      · rw [hbp]
        simp [hemp]

theorem claim_C2_body_priority_witness :
    ((requestPaused wEnv (wState wRouteForm) wEv2).cmd =
      FetchCommand.fulfillRequest
        (responseCommand wEnv (wState wRouteForm) wEv2 200 "OK" wGForm)) ∧
    (responseCommand wEnv (wState wRouteForm) wEv2 200 "OK" wGForm).body =
      some (jsonBodyEncode [("foo", "bar")]) := by
  refine ⟨rfl, ?_⟩
  have h := (claim_C2_body_priority wEnv (wState wRouteForm) wEv2 [wRouteForm]
      wRouteForm 200 "OK" rfl rfl rfl).2 wGForm rfl rfl rfl rfl
      (responseCommand wEnv (wState wRouteForm) wEv2 200 "OK" wGForm) rfl
  exact h.1 JsonBodyParser rfl rfl

/-! ## The snapshot cache (C10) -/

theorem aget_append_of_none {κ α : Type} [BEq κ] [LawfulBEq κ]
    (l1 l2 : List (κ × α)) (k : κ)
    (h : ∀ q ∈ l1, (q.1 == k) = false) : aget (l1 ++ l2) k = aget l2 k := by
  induction l1 with
  | nil => rfl
  | cons q t ih =>
    rcases q with ⟨qk, qv⟩
    have hq : qk ≠ k := by
      have := h (qk, qv) (by simp)
      simpa [beq_eq_false_iff_ne] using this
    rw [List.cons_append, aget_cons_ne _ k qk qv hq]
    exact ih (fun x hx => h x (by simp [hx]))

theorem aget_aset_self {κ α : Type} [BEq κ] [LawfulBEq κ]
    (m : List (κ × α)) (k : κ) (v : α) :
    aget (aset m k v) k = some v := by
  induction m with
  | nil => simp [aset, aget, List.find?]
  | cons p t ih =>
    by_cases hp : (p.1 == k) = true
    · have hany : ((p :: t).any fun q => q.1 == k) = true := by
        simp [List.any_cons, hp]
      rw [aset, if_pos hany]
      simp only [List.map_cons, hp, if_true]
      exact aget_cons_self _ k v
    · have hpf : (p.1 == k) = false := Bool.not_eq_true _ ▸ hp
      by_cases ht : (t.any fun q => q.1 == k) = true
      · have hany : ((p :: t).any fun q => q.1 == k) = true := by
          simp [List.any_cons, ht]
        rw [aset, if_pos hany]
        simp only [List.map_cons, hpf, if_false, Bool.false_eq_true]
        rcases p with ⟨pk, pv⟩
        rw [aget_cons_ne _ k pk pv (by simpa [beq_eq_false_iff_ne] using hpf)]
        have hmap : t.map (fun q => if q.1 == k then (k, v) else q) = aset t k v := by
          rw [aset, if_pos ht]
        rw [hmap]
        exact ih
      · have htf : (t.any fun q => q.1 == k) = false := Bool.not_eq_true _ ▸ ht
        have hany : ((p :: t).any fun q => q.1 == k) = false := by
          simp [List.any_cons, hpf, htf]
        rw [aset, if_neg (by simp [hany])]
        rw [aget_append_of_none (p :: t) [(k, v)] k]
        · exact aget_cons_self [] k v
        · intro q hq
          rcases List.mem_cons.mp hq with rfl | hq'
          · exact hpf
          · exact Bool.not_eq_true _ ▸ (List.any_eq_false.mp htf q hq')

theorem listenersGet_listenersSet_self (lt : ListenerTable) (m o : String)
    (r : Route) :
    listenersGet (listenersSet lt m o r) m o =
      some (((listenersGet lt m o).getD []) ++ [r]) := by
  unfold listenersGet listenersSet
  cases hlt : aget lt m
  · simp only [hlt, aget_aset_self, Option.getD_none]
    rfl
  · simp [hlt, aget_aset_self]

/-- C10: once a dispatch has snapshotted the (method, origin) entry list,
a route registered afterwards under that same pair is invisible to later
dispatches for the pair — their outcome is exactly the outcome before the
registration. -/
theorem claim_C10_stale_snapshot (env : Env) (st st' : FetchInterceptorState)
    (ev : RequestPausedEvent) (patternUrl : URLParts)
    (cbs : InvocationCallbacks) (s p : List Route)
    (hp : listenersGet st.listeners ev.method ev.url.origin = some p)
    (hcache : aget st.listenersCache (ev.method, ev.url.origin) = some s)
    (horigin : patternUrl.origin = ev.url.origin)
    (hreg : handle env st ev.method patternUrl cbs = some st') :
    requestPaused env st' ev = requestPaused env st ev := by
  have hm : IsInvocationMethod ev.method = true := by
    by_cases h : IsInvocationMethod ev.method = true
    · exact h
    · simp [handle, h] at hreg
  simp only [handle, hm, if_true, Option.some.injEq] at hreg
  subst hreg
  rw [horigin]
  rcases st with ⟨lt, lc, cc, bp⟩
  unfold requestPaused
  simp only [hm, not_true_eq_false, if_false, Bool.not_true]
  rw [listenersGet_listenersSet_self, hp]
  simp only [Option.getD_some, cachedEntries, updatedCache, hcache]
  rfl

/-! ## The JSON codec round trip (C8) -/

theorem hexVal_hexDigitChar (n : Nat) (h : n < 16) :
    hexVal (hexDigitChar n) = some n := by
  interval_cases n <;> decide

/-- Decoding one emitted `\u00xx` control escape. -/
theorem parseUEscape_control (c : Char) (hc : c.toNat < 32) (tail : List Char) :
    parseUEscape ('0' :: '0' :: hexDigitChar (c.toNat / 16) ::
      hexDigitChar (c.toNat % 16) :: tail) = some (c, 4) := by
  have hd1 : hexVal (hexDigitChar (c.toNat / 16)) = some (c.toNat / 16) :=
    hexVal_hexDigitChar _ (by omega)
  have hd2 : hexVal (hexDigitChar (c.toNat % 16)) = some (c.toNat % 16) :=
    hexVal_hexDigitChar _ (by omega)
  have hn : ((0 * 16 + 0) * 16 + c.toNat / 16) * 16 + c.toNat % 16 = c.toNat := by
    omega
  have h0 : hexVal '0' = some 0 := by decide
  simp only [parseUEscape, h0, hd1, hd2, hn]
  rw [if_neg (by omega)]
  rw [Char.ofNat_toNat]

theorem parseStrChars_quote (rest : List Char) :
    parseStrChars ('"' :: rest) = some ([], rest) := by
  rw [parseStrChars.eq_def]
  simp +decide

theorem parseStrChars_esc_quote (r : List Char) :
    parseStrChars ('\\' :: '"' :: r) =
      (parseStrChars r).map (fun q => ('"' :: q.1, q.2)) := by
  simp +decide [parseStrChars]

theorem parseStrChars_esc_backslash (r : List Char) :
    parseStrChars ('\\' :: '\\' :: r) =
      (parseStrChars r).map (fun q => ('\\' :: q.1, q.2)) := by
  simp +decide [parseStrChars]

theorem parseStrChars_esc_b (r : List Char) :
    parseStrChars ('\\' :: 'b' :: r) =
      (parseStrChars r).map (fun q => (Char.ofNat 8 :: q.1, q.2)) := by
  simp +decide [parseStrChars]

theorem parseStrChars_esc_t (r : List Char) :
    parseStrChars ('\\' :: 't' :: r) =
      (parseStrChars r).map (fun q => (Char.ofNat 9 :: q.1, q.2)) := by
  simp +decide [parseStrChars]

theorem parseStrChars_esc_n (r : List Char) :
    parseStrChars ('\\' :: 'n' :: r) =
      (parseStrChars r).map (fun q => (Char.ofNat 10 :: q.1, q.2)) := by
  simp +decide [parseStrChars]

theorem parseStrChars_esc_f (r : List Char) :
    parseStrChars ('\\' :: 'f' :: r) =
      (parseStrChars r).map (fun q => (Char.ofNat 12 :: q.1, q.2)) := by
  simp +decide [parseStrChars]

theorem parseStrChars_esc_r (r : List Char) :
    parseStrChars ('\\' :: 'r' :: r) =
      (parseStrChars r).map (fun q => (Char.ofNat 13 :: q.1, q.2)) := by
  simp +decide [parseStrChars]

theorem parseStrChars_esc_u (r : List Char) :
    parseStrChars ('\\' :: 'u' :: r) =
      match parseUEscape r with
      | some (ch, k) => (parseStrChars (r.drop k)).map (fun q => (ch :: q.1, q.2))
      | none => none := by
  simp +decide [parseStrChars]

theorem parseStrChars_plain (c : Char) (rest : List Char) (h1 : ¬ c = '"')
    (h2 : ¬ c = '\\') (h3 : ¬ c.toNat < 32) :
    parseStrChars (c :: rest) =
      (parseStrChars rest).map (fun q => (c :: q.1, q.2)) := by
  rw [parseStrChars.eq_def]
  simp +decide [h1, h2, h3]

/-- The escape pass of `JSON.stringify` and the string parser of
`JSON.parse` are mutually inverse. -/
theorem parseStrChars_escape (l rest : List Char) :
    parseStrChars (escapeList l ++ '"' :: rest) = some (l, rest) := by
  induction l with
  | nil =>
    show parseStrChars ([] ++ '"' :: rest) = _
    rw [List.nil_append, parseStrChars_quote]
  | cons c t ih =>
    show parseStrChars ((escapeChar c ++ escapeList t) ++ '"' :: rest) = _
    rw [List.append_assoc]
    by_cases h1 : c = '"'
    · subst h1
      rw [show escapeChar '"' = ['\\', '"'] from rfl]
      simp only [List.cons_append, List.nil_append]
      rw [parseStrChars_esc_quote, ih]
      rfl
    · by_cases h2 : c = '\\'
      · subst h2
        rw [show escapeChar '\\' = ['\\', '\\'] from rfl]
        simp only [List.cons_append, List.nil_append]
        rw [parseStrChars_esc_backslash, ih]
        rfl
      · by_cases h3 : c = Char.ofNat 8
        · subst h3
          rw [show escapeChar (Char.ofNat 8) = ['\\', 'b'] from rfl]
          simp only [List.cons_append, List.nil_append]
          rw [parseStrChars_esc_b, ih]
          rfl
        · by_cases h4 : c = Char.ofNat 9
          · subst h4
            rw [show escapeChar (Char.ofNat 9) = ['\\', 't'] from rfl]
            simp only [List.cons_append, List.nil_append]
            rw [parseStrChars_esc_t, ih]
            rfl
          · by_cases h5 : c = Char.ofNat 10
            · subst h5
              rw [show escapeChar (Char.ofNat 10) = ['\\', 'n'] from rfl]
              simp only [List.cons_append, List.nil_append]
              rw [parseStrChars_esc_n, ih]
              rfl
            · by_cases h6 : c = Char.ofNat 12
              · subst h6
                rw [show escapeChar (Char.ofNat 12) = ['\\', 'f'] from rfl]
                simp only [List.cons_append, List.nil_append]
                rw [parseStrChars_esc_f, ih]
                rfl
              · by_cases h7 : c = Char.ofNat 13
                · subst h7
                  rw [show escapeChar (Char.ofNat 13) = ['\\', 'r'] from rfl]
                  simp only [List.cons_append, List.nil_append]
                  rw [parseStrChars_esc_r, ih]
                  rfl
                · by_cases h8 : c.toNat < 32
                  · rw [show escapeChar c = ['\\', 'u', '0', '0',
                        hexDigitChar (c.toNat / 16), hexDigitChar (c.toNat % 16)] from by
                      rw [escapeChar, if_neg h1, if_neg h2, if_neg h3, if_neg h4,
                        if_neg h5, if_neg h6, if_neg h7, if_pos h8]]
                    simp only [List.cons_append, List.nil_append]
                    rw [parseStrChars_esc_u, parseUEscape_control c h8]
                    simp only [List.drop_succ_cons, List.drop_zero]
                    rw [ih]
                    rfl
                  · rw [show escapeChar c = [c] from by
                      rw [escapeChar, if_neg h1, if_neg h2, if_neg h3, if_neg h4,
                        if_neg h5, if_neg h6, if_neg h7, if_neg h8]]
                    simp only [List.cons_append, List.nil_append]
                    rw [parseStrChars_plain c _ h1 h2 h8, ih]
                    rfl

theorem skipWs_not_ws (c : Char) (l : List Char) (h : isJsonWs c = false) :
    skipWs (c :: l) = c :: l := by
  simp [skipWs, List.dropWhile_cons, h]

theorem parseValue_string (n : Nat) (s : String) (rest : List Char) :
    parseValue (n + 1) (quoteChars s ++ rest) = some (Json.str s, rest) := by
  have hsh : quoteChars s ++ rest = '"' :: (escapeList s.data ++ '"' :: rest) := by
    simp [quoteChars]
  rw [hsh]
  rw [parseValue]
  rw [skipWs_not_ws _ _ (by decide)]
  simp +decide [parseStrChars_escape]

theorem parseValue_string_of_pos (n : Nat) (s : String) (rest : List Char)
    (h : 1 ≤ n) :
    parseValue n (quoteChars s ++ rest) = some (Json.str s, rest) := by
  obtain ⟨k, rfl⟩ : ∃ k, n = k + 1 := ⟨n - 1, by omega⟩
  exact parseValue_string k s rest

theorem one_le_length_encodeEntry (p : String × String) :
    1 ≤ (encodeEntryChars p).length := by
  simp [encodeEntryChars, quoteChars]

theorem length_le_encodeEntries (m : List (String × String)) :
    m.length ≤ (encodeEntriesChars m).length := by
  induction m with
  | nil => simp [encodeEntriesChars]
  | cons p t ih =>
    cases t with
    | nil => simpa [encodeEntriesChars] using one_le_length_encodeEntry p
    | cons q u =>
      rw [show encodeEntriesChars (p :: q :: u) =
        encodeEntryChars p ++ ',' :: encodeEntriesChars (q :: u) from rfl]
      have h1 := one_le_length_encodeEntry p
      simp only [List.length_append, List.length_cons] at *
      omega

theorem parseMembers_encode (m : List (String × String)) :
    ∀ (n : Nat) (acc : List (String × Json)) (rest : List Char), m ≠ [] →
    m.length + 1 ≤ n →
    parseMembers n (encodeEntriesChars m ++ '}' :: rest) acc =
      some (m.foldl (fun a q => aset a q.1 (Json.str q.2)) acc, rest) := by
  induction m with
  | nil => intro n acc rest hne; exact absurd rfl hne
  | cons p t ih =>
    intro n acc rest _ hlen
    obtain ⟨n', rfl⟩ : ∃ k, n = k + 1 := ⟨n - 1, by omega⟩
    cases t with
    | nil =>
      have hsh : encodeEntriesChars [p] ++ '}' :: rest =
          '"' :: (escapeList p.1.data ++ '"' ::
            (':' :: (quoteChars p.2 ++ '}' :: rest))) := by
        simp [encodeEntriesChars, encodeEntryChars, quoteChars]
      have hn' : 1 ≤ n' := by
        simp only [List.length_cons, List.length_nil] at hlen
        omega
      rw [hsh]
      rw [parseMembers]
      rw [skipWs_not_ws _ _ (by decide)]
      simp +decide only [parseStrChars_escape]
      rw [skipWs_not_ws _ _ (by decide)]
      simp +decide only [parseValue_string_of_pos n' p.2 ('}' :: rest) hn', skipWs_not_ws]
      simp
    | cons q u =>
      have hsh : encodeEntriesChars (p :: q :: u) ++ '}' :: rest =
          '"' :: (escapeList p.1.data ++ '"' ::
            (':' :: (quoteChars p.2 ++ ',' ::
              (encodeEntriesChars (q :: u) ++ '}' :: rest)))) := by
        simp [encodeEntriesChars, encodeEntryChars, quoteChars]
      have hn' : 1 ≤ n' := by
        simp only [List.length_cons] at hlen
        omega
      rw [hsh]
      rw [parseMembers]
      rw [skipWs_not_ws _ _ (by decide)]
      simp +decide only [parseStrChars_escape]
      rw [skipWs_not_ws _ _ (by decide)]
      simp +decide only [parseValue_string_of_pos n' p.2
        (',' :: (encodeEntriesChars (q :: u) ++ '}' :: rest)) hn', skipWs_not_ws]
      rw [show ({ data := p.1.data } : String) = p.1 from rfl]
      rw [ih n' (aset acc p.1 (Json.str p.2)) rest (by simp)
        (by simp only [List.length_cons] at hlen ⊢; omega)]
      simp

theorem aset_append_fresh {κ α : Type} [BEq κ] [LawfulBEq κ]
    (m : List (κ × α)) (k : κ) (v : α) (h : k ∉ akeys m) :
    aset m k v = m ++ [(k, v)] := by
  unfold aset
  rw [if_neg]
  intro hany
  rcases List.any_eq_true.mp hany with ⟨q, hq, hqk⟩
  apply h
  rw [← eq_of_beq hqk]
  exact List.mem_map.mpr ⟨q, hq, rfl⟩

/-- Folding key-fresh, key-unique entries into an object appends them in
order. -/
theorem foldl_aset_str_fresh :
    ∀ (l : List (String × String)) (acc : List (String × Json)),
      NodupKeys l → (∀ k ∈ akeys l, k ∉ akeys acc) →
      l.foldl (fun a q => aset a q.1 (Json.str q.2)) acc =
        acc ++ l.map (fun q => (q.1, Json.str q.2)) := by
  intro l
  induction l with
  | nil => intro acc _ _; simp
  | cons p t ih =>
    intro acc hnd hfresh
    simp only [NodupKeys, akeys, List.map_cons, List.nodup_cons] at hnd
    have hstep : aset acc p.1 (Json.str p.2) = acc ++ [(p.1, Json.str p.2)] :=
      aset_append_fresh acc p.1 (Json.str p.2)
        (hfresh p.1 (by simp [akeys]))
    simp only [List.foldl_cons, hstep]
    rw [ih (acc ++ [(p.1, Json.str p.2)]) hnd.2]
    · simp
    · intro k hk hkmem
      rw [show akeys (acc ++ [(p.1, Json.str p.2)]) = akeys acc ++ [p.1] from by
        simp [akeys]] at hkmem
      rcases List.mem_append.mp hkmem with hka | hkp
      · exact hfresh k (List.mem_cons_of_mem _ hk) hka
      · have hkp' : k = p.1 := by simpa using hkp
        exact hnd.1 (hkp' ▸ hk)

theorem head_encodeEntries (p : String × String) (t : List (String × String)) :
    ∃ X, encodeEntriesChars (p :: t) = '"' :: X := by
  cases t with
  | nil =>
    refine ⟨escapeList p.1.data ++ '"' :: ':' :: '"' ::
      (escapeList p.2.data ++ ['"']), ?_⟩
    simp [encodeEntriesChars, encodeEntryChars, quoteChars]
  | cons q u =>
    refine ⟨escapeList p.1.data ++ '"' :: ':' :: '"' ::
      (escapeList p.2.data ++ '"' :: ',' :: encodeEntriesChars (q :: u)), ?_⟩
    simp [encodeEntriesChars, encodeEntryChars, quoteChars]

/-- Parsing back a stringified string-valued object. -/
theorem jsonParse_stringify (m : List (String × String)) :
    jsonParse (jsonStringifyObj m) =
      some (Json.obj (m.foldl (fun a q => aset a q.1 (Json.str q.2)) [])) := by
  cases m with
  | nil => rfl
  | cons p t =>
    unfold jsonParse jsonStringifyObj
    simp only [String.length]
    have hpm := parseMembers_encode (p :: t)
      (('{' :: (encodeEntriesChars (p :: t) ++ ['}'])).length + 1) [] []
      (by simp)
      (by
        have := length_le_encodeEntries (p :: t)
        simp only [List.length_cons, List.length_append] at *
        omega)
    obtain ⟨X, hX⟩ := head_encodeEntries p t
    have hk : ('{' :: (encodeEntriesChars (p :: t) ++ ['}'])).length + 2 =
        (('{' :: (encodeEntriesChars (p :: t) ++ ['}'])).length + 1) + 1 := rfl
    rw [hk]
    rw [parseValue]
    rw [skipWs_not_ws _ _ (by decide)]
    simp +decide only [if_true, if_false]
    rw [show encodeEntriesChars (p :: t) ++ ['}'] = '"' :: (X ++ '}' :: []) from by
      rw [hX]; simp]
    rw [skipWs_not_ws _ _ (by decide)]
    have hback : ('"' : Char) :: (X ++ '}' :: []) =
        encodeEntriesChars (p :: t) ++ ['}'] := by
      rw [hX]; simp
    split
    · rename_i v rest heq
      split at heq
      · rename_i r heq2
        injection heq2 with h1 h2
        exact absurd h1 (by decide)
      · rename_i l2 hne
        rw [hback, hpm] at heq
        simp only [Option.map_some', Option.some.injEq, Prod.mk.injEq] at heq
        obtain ⟨rfl, rfl⟩ := heq
        simp [skipWs]
    · rename_i heq
      split at heq
      · rename_i r heq2
        injection heq2 with h1 h2
        exact absurd h1 (by decide)
      · rename_i l2 hne
        rw [hback, hpm] at heq
        simp at heq

/-- C8: encoding a string-valued map with the JSON codec and parsing the
result back yields the original map, and on any input that is not valid
JSON (where `JSON.parse` throws) the codec's parse returns the empty map
instead of propagating the failure. -/
theorem claim_C8_json_codec :
    (∀ m : List (String × String), NodupKeys m →
      jsonBodyParse (jsonBodyEncode m) = m) ∧
    (∀ s : String, jsonParse s = none → jsonBodyParse s = []) := by
  constructor
  · intro m hm
    unfold jsonBodyParse jsonBodyEncode
    rw [jsonParse_stringify m]
    rw [foldl_aset_str_fresh m [] hm (by simp [akeys])]
    rw [List.nil_append]
    show List.map (fun p => (p.1, jsonValToString p.2))
      (List.map (fun q => (q.1, Json.str q.2)) m) = m
    rw [List.map_map]
    rw [show ((fun p : String × Json => (p.1, jsonValToString p.2)) ∘
        fun q : String × String => (q.1, Json.str q.2)) = id from
      funext (fun q => rfl)]
    rw [List.map_id]
  · intro s h
    unfold jsonBodyParse
    rw [h]

theorem claim_C8_json_codec_witness :
    jsonBodyParse (jsonBodyEncode [("name", "Alice")]) = [("name", "Alice")] ∧
    jsonBodyParse "not json" = [] :=
  ⟨claim_C8_json_codec.1 [("name", "Alice")] (by simp [NodupKeys, akeys]),
   claim_C8_json_codec.2 "not json" rfl⟩

theorem claim_C10_stale_snapshot_witness :
    requestPaused wEnv wSt10' wEvReq = requestPaused wEnv wSt10 wEvReq ∧
    (requestPaused wEnv wSt10' wEvReq).invokedOnRequest = false ∧
    (wSt10Route.matcher "/t").isSome = true :=
  ⟨claim_C10_stale_snapshot wEnv wSt10 wSt10' wEvReq wUrl wRouteId.callbacks
      [wRouteNone] [wRouteNone] rfl rfl rfl rfl,
   rfl, rfl⟩

end ChromeRD
